import Mathlib

/-!
microkeyer: frame codec, sequence builder, decoder and control framer.

A shallow embedding of `src/microkeyer.c` / `src/microkeyer.h`.

* A C `unsigned char` is a natural number below 256; every store into a byte
  array truncates modulo 256, as the C assignment does.
* `frame_t` (4 bytes) and `sequence_t` (21 bytes) are maps from the array
  index to the byte stored there; an assignment `a[i] = v` is `store a i v`.
* `decode_frame` keeps its `static int sequencepos` as an explicit argument
  and result; the bytes it hands to `write` are returned as a list, in order.
-/

namespace Microkeyer

/-! ## microkeyer.h -/

@[simp] abbrev SYNCHRO_MSB_SHARED : Nat := 0x01
@[simp] abbrev SYNCHRO_MSB_R2 : Nat := 0x02
@[simp] abbrev SYNCHRO_MSB_R1 : Nat := 0x04
@[simp] abbrev SYNCHRO_VALID_SHARED : Nat := 0x08
@[simp] abbrev SYNCHRO_VALID_R2 : Nat := 0x10
@[simp] abbrev SYNCHRO_VALID_R1 : Nat := 0x20
@[simp] abbrev SYNCHRO_SEQUENCE : Nat := 0x40

@[simp] abbrev FLAGS_R1_RTS : Nat := 0x01
@[simp] abbrev FLAGS_R2_RTS : Nat := 0x02
@[simp] abbrev FLAGS_R1_PTT : Nat := 0x04
@[simp] abbrev FLAGS_R2_PTT : Nat := 0x08
@[simp] abbrev FLAGS_R1_FSK_EXT : Nat := 0x10
@[simp] abbrev FLAGS_R2_FSK_EXT : Nat := 0x20
@[simp] abbrev FLAGS_R1_CW : Nat := 0x40
@[simp] abbrev FLAGS_R2_CW : Nat := 0x80

/-- A 4 byte frame: `typedef unsigned char frame_t[4]`. -/
abbrev frame_t := Nat → Nat

/-- Sequence of up to 5 frames plus the number of frames to send:
`typedef unsigned char sequence_t[21]`. -/
abbrev sequence_t := Nat → Nat

/-- The assignment `a[i] = v` into an `unsigned char` array. -/
def store (a : Nat → Nat) (i v : Nat) : Nat → Nat :=
  fun j => if j = i then v % 256 else a j

/-- The frame with the four given bytes. -/
def frame_of (b0 b1 b2 b3 : Nat) : frame_t :=
  fun j => match j with
    | 0 => b0
    | 1 => b1
    | 2 => b2
    | _ => b3

/-- The 4 bytes of frame `i` of a sequence, `seq[4*i] .. seq[4*i+3]`. -/
def frame_at (seq : sequence_t) (i : Nat) : frame_t :=
  fun j => seq (4 * i + j)

/-! ## Sequence construction (microkeyer.c, lines 103-222) -/

/-- `sequence_init`: no flags set, no channels valid. -/
def sequence_init (seq : sequence_t) : sequence_t :=
  let seq := (List.range 20).foldl (fun s i => store s i 0x80) seq
  let seq := [4, 8, 12, 16].foldl (fun s i => store s i 0x40) seq
  let seq := store seq 0 0x08
  store seq 20 0

/-- `sequence_set_rts`. -/
def sequence_set_rts (seq : sequence_t) (radio : Nat) : sequence_t :=
  let seq :=
    if radio = 1 then store seq 3 (seq 3 ||| FLAGS_R1_RTS)
    else if radio = 2 then store seq 3 (seq 3 ||| FLAGS_R2_RTS)
    else seq
  if seq 20 < 1 then store seq 20 1 else seq

/-- `sequence_set_ptt`. -/
def sequence_set_ptt (seq : sequence_t) (radio : Nat) : sequence_t :=
  let seq :=
    if radio = 1 then store seq 3 (seq 3 ||| FLAGS_R1_PTT)
    else if radio = 2 then store seq 3 (seq 3 ||| FLAGS_R2_PTT)
    else seq
  if seq 20 < 1 then store seq 20 1 else seq

/-- `sequence_set_fsk_ext`. -/
def sequence_set_fsk_ext (seq : sequence_t) (radio : Nat) : sequence_t :=
  let seq :=
    if radio = 1 then store seq 3 (seq 3 ||| FLAGS_R1_FSK_EXT)
    else if radio = 2 then store seq 3 (seq 3 ||| FLAGS_R2_FSK_EXT)
    else seq
  if seq 20 < 1 then store seq 20 1 else seq

/-- `sequence_set_cw`. -/
def sequence_set_cw (seq : sequence_t) (radio : Nat) : sequence_t :=
  let seq :=
    if radio = 1 then store seq 3 (seq 3 ||| FLAGS_R1_CW)
    else if radio = 2 then store seq 3 (seq 3 ||| FLAGS_R2_CW)
    else seq
  if seq 20 < 1 then store seq 20 1 else seq

/-- `sequence_set_radio`: set radio channel byte in a given frame (0-4). -/
def sequence_set_radio (seq : sequence_t) (radio frame data : Nat) : sequence_t :=
  let seq := store seq (radio + 4 * frame) (0x80 ||| data)
  let seq :=
    if radio = 1 then
      store seq (4 * frame)
        (seq (4 * frame) |||
          ((if data &&& 0x080 ≠ 0 then SYNCHRO_MSB_R1 else 0x00) ||| SYNCHRO_VALID_R1))
    else if radio = 2 then
      store seq (4 * frame)
        (seq (4 * frame) |||
          ((if data &&& 0x080 ≠ 0 then SYNCHRO_MSB_R2 else 0x00) ||| SYNCHRO_VALID_R2))
    else seq
  if seq 20 < frame + 1 then store seq 20 (frame + 1) else seq

/-- `sequence_set_control`: set control channel byte. -/
def sequence_set_control (seq : sequence_t) (data valid : Nat) : sequence_t :=
  let seq := store seq 7 (0x80 ||| data)
  let seq := store seq 4 (seq 4 ||| (if data &&& 0x080 ≠ 0 then SYNCHRO_MSB_SHARED else 0x00))
  let seq := if valid ≠ 0 then store seq 4 (seq 4 ||| SYNCHRO_VALID_SHARED) else seq
  if seq 20 < 2 then store seq 20 2 else seq

/-- `sequence_set_winkey`: set Winkey channel byte. -/
def sequence_set_winkey (seq : sequence_t) (data : Nat) : sequence_t :=
  let seq := store seq 11 (0x80 ||| data)
  let seq :=
    store seq 8
      (seq 8 |||
        ((if data &&& 0x080 ≠ 0 then SYNCHRO_MSB_SHARED else 0x00) ||| SYNCHRO_VALID_SHARED))
  if seq 20 < 3 then store seq 20 3 else seq

/-- `sequence_set_fsk`: set FSK channel byte for given radio. -/
def sequence_set_fsk (seq : sequence_t) (radio data : Nat) : sequence_t :=
  let seq := store seq (11 + radio * 4) (0x80 ||| data)
  let seq :=
    store seq (8 + radio * 4)
      (seq (8 + radio * 4) |||
        ((if data &&& 0x080 ≠ 0 then SYNCHRO_MSB_SHARED else 0x00) ||| SYNCHRO_VALID_SHARED))
  if seq 20 < 3 + radio then store seq 20 (3 + radio) else seq

/-- `frames_in_sequence`: how many frames in the sequence are used. -/
def frames_in_sequence (seq : sequence_t) : Nat :=
  seq 20

/-- `send_sequence`: the buffer handed to `write(fd, seq, numframes*4)`, the
first `numframes*4` bytes of the sequence. -/
def send_sequence (seq : sequence_t) : List Nat :=
  let numframes := frames_in_sequence seq
  (List.range (numframes * 4)).map seq

/-! ## Frame decoding (microkeyer.c, lines 248-327) -/

/-- File descriptors for device and ptys (`struct ports`); a negative
descriptor is a port that was not opened. -/
structure ports where
  keyer : Int
  control : Int
  radio1 : Int
  radio2 : Int
  fsk1 : Int
  fsk2 : Int
  winkey : Int
  keyboard : Int

/-- The field of `struct ports` a `write` goes to. -/
inductive port_id where
  | keyer | control | radio1 | radio2 | fsk1 | fsk2 | winkey | keyboard
  deriving DecidableEq

/-- One call `write(ports->port, &byte, 1)`. -/
structure write_event where
  port : port_id
  byte : Nat
  deriving DecidableEq

/-- The call `write(fd, &byte, 1)` guarded by `fd >= 0`. -/
def write_port (fd : Int) (port : port_id) (byte : Nat) : List write_event :=
  if fd ≥ 0 then [⟨port, byte⟩] else []

/-- Synchronize on SYNCHRO_SEQUENCE: the value of `sequencepos` the frame is
decoded at. -/
def decode_sync (sequencepos : Nat) (frame : frame_t) : Nat :=
  if frame 0 &&& 0xC0 = 0 then 0 else sequencepos

/-- Decode R1 data channel. -/
def decode_r1 (frame : frame_t) (p : ports) : frame_t × List write_event :=
  if frame 0 &&& SYNCHRO_VALID_R1 ≠ 0 then
    let frame :=
      if frame 0 &&& SYNCHRO_MSB_R1 = 0 then store frame 1 (frame 1 &&& 0x7F) else frame
    (frame, write_port p.radio1 port_id.radio1 (frame 1))
  else (frame, [])

/-- Decode R2 data channel. -/
def decode_r2 (frame : frame_t) (p : ports) : frame_t × List write_event :=
  if frame 0 &&& SYNCHRO_VALID_R2 ≠ 0 then
    let frame :=
      if frame 0 &&& SYNCHRO_MSB_R2 = 0 then store frame 2 (frame 2 &&& 0x7F) else frame
    (frame, write_port p.radio2 port_id.radio2 (frame 2))
  else (frame, [])

/-- The `switch (sequencepos)` of the shared channel, on the decoded byte
`frame[3]`: the write it makes. Position 0 (FLAGS) only prints the flags. -/
def shared_switch (sequencepos : Nat) (byte : Nat) (p : ports) : List write_event :=
  match sequencepos with
  | 0 => []
  | 1 => if byte ≠ 0 then write_port p.control port_id.control byte else []
  | 2 => write_port p.winkey port_id.winkey byte
  | 3 => write_port p.keyboard port_id.keyboard byte
  | _ => []

/-- Decode shared channel, at the given sequence position. -/
def decode_shared (sequencepos : Nat) (frame : frame_t) (p : ports) :
    frame_t × List write_event :=
  if frame 0 &&& SYNCHRO_VALID_SHARED ≠ 0 ∨ sequencepos = 1 then
    let frame :=
      if frame 0 &&& SYNCHRO_MSB_SHARED = 0 then store frame 3 (frame 3 &&& 0x7F) else frame
    (frame, shared_switch sequencepos (frame 3) p)
  else (frame, [])

/-- What one call of `decode_frame` leaves behind. -/
structure decode_result where
  sequencepos : Nat
  frame : frame_t
  writes : List write_event

/-- `decode_frame`: decode a 4 octet frame. `sequencepos` is the function's
static sequence position, a C `int` that is only reset or incremented; it is
kept as a natural number. -/
def decode_frame (sequencepos : Nat) (frame : frame_t) (p : ports) : decode_result :=
  let sequencepos := decode_sync sequencepos frame
  let r1 := decode_r1 frame p
  let r2 := decode_r2 r1.1 p
  let sh := decode_shared sequencepos r2.1 p
  { sequencepos := sequencepos + 1, frame := sh.1, writes := r1.2 ++ r2.2 ++ sh.2 }

/-- Successive calls of `decode_frame` on the frames read from the device:
the final sequence position and all writes, in order. -/
def decode_frames (sequencepos : Nat) (frames : List frame_t) (p : ports) :
    Nat × List write_event :=
  match frames with
  | [] => (sequencepos, [])
  | f :: fs =>
    let r := decode_frame sequencepos f p
    let rest := decode_frames r.sequencepos fs p
    (rest.1, r.writes ++ rest.2)

/-! ## Control framer (microkeyer.c, main, lines 551-571) -/

/-- The arguments `data`, `valid` of one call of `sequence_set_control`. -/
structure control_call where
  data : Nat
  valid : Nat
  deriving DecidableEq

/-- One byte read from the control pty: the `sequence_set_control` call made
for it and the new value of `controlendbyte` (0x00 when no command is open). -/
def control_framer (controlendbyte data : Nat) : control_call × Nat :=
  if controlendbyte = 0 then
    (⟨data, 0⟩, if data ≠ 0 then (data ||| 0x80) % 256 else controlendbyte)
  else if controlendbyte = data then
    (⟨data, 0⟩, 0x00)
  else
    (⟨data, 1⟩, controlendbyte)

/-- The control branch of one cycle of `main`, acting on the sequence. -/
def control_input (controlendbyte : Nat) (seq : sequence_t) (data : Nat) : sequence_t × Nat :=
  let r := control_framer controlendbyte data
  (sequence_set_control seq r.1.data r.1.valid, r.2)

/-- Bytes read from the control pty one per cycle: the calls made, in order,
and the final `controlendbyte`. -/
def control_run (controlendbyte : Nat) (bytes : List Nat) : List control_call × Nat :=
  match bytes with
  | [] => ([], controlendbyte)
  | b :: bs =>
    let r := control_framer controlendbyte b
    let rest := control_run r.2 bs
    (r.1 :: rest.1, rest.2)

/-! ## Setter calls as data -/

/-- One call of a `sequence_set_*` function, with its arguments. -/
inductive setter_call where
  | rts (radio : Nat)
  | ptt (radio : Nat)
  | fsk_ext (radio : Nat)
  | cw (radio : Nat)
  | radio (radio frame data : Nat)
  | control (data valid : Nat)
  | winkey (data : Nat)
  | fsk (radio data : Nat)
  deriving DecidableEq

/-- Perform the call on a sequence. -/
def apply_call (seq : sequence_t) : setter_call → sequence_t
  | .rts radio => sequence_set_rts seq radio
  | .ptt radio => sequence_set_ptt seq radio
  | .fsk_ext radio => sequence_set_fsk_ext seq radio
  | .cw radio => sequence_set_cw seq radio
  | .radio radio frame data => sequence_set_radio seq radio frame data
  | .control data valid => sequence_set_control seq data valid
  | .winkey data => sequence_set_winkey seq data
  | .fsk radio data => sequence_set_fsk seq radio data

/-- Perform a list of calls, first to last. -/
def apply_calls (seq : sequence_t) (calls : List setter_call) : sequence_t :=
  calls.foldl apply_call seq

/-- The index of the frame a call writes to: the flags live in frame 0, the
control byte in frame 1, the Winkey byte in frame 2 and the FSK byte of radio
`r` in frame `2 + r`. -/
def target_frame : setter_call → Nat
  | .rts _ => 0
  | .ptt _ => 0
  | .fsk_ext _ => 0
  | .cw _ => 0
  | .radio _ frame _ => frame
  | .control _ _ => 1
  | .winkey _ => 2
  | .fsk radio _ => 2 + radio

/-- The calls the program can make: a radio is 1 or 2 where it selects a
slot, a frame index is 0..4. -/
def call_ok : setter_call → Bool
  | .radio radio frame _ => (radio == 1 || radio == 2) && decide (frame ≤ 4)
  | .fsk radio _ => radio == 1 || radio == 2
  | _ => true

/-- The highest frame index targeted by a list of calls (0 for no call). -/
def highest_target (calls : List setter_call) : Nat :=
  (calls.map target_frame).foldr max 0

/-! ## The main loop (microkeyer.c, main, lines 491-631) -/

/-- `fd_set`: a set of file descriptors, given by membership. -/
abbrev fd_set := Int → Bool

/-- `FD_ZERO`: the empty set. -/
def FD_ZERO : fd_set := fun _ => false

/-- `FD_SET(fd, &set)`. -/
def FD_SET (fd : Int) (set : fd_set) : fd_set :=
  fun x => if x = fd then true else set x

/-- `FD_CLR(fd, &set)`. -/
def FD_CLR (fd : Int) (set : fd_set) : fd_set :=
  fun x => if x = fd then false else set x

/-- `FD_ISSET(fd, &set)`. -/
def FD_ISSET (fd : Int) (set : fd_set) : Bool :=
  set fd

/-- Set up fds to all except those that return EOF or other error
(lines 505-522): the descriptors `select` is asked to wait for. -/
def wait_fds (allfds eoffds : fd_set) (p : ports) : fd_set :=
  let fds := allfds
  let fds := if FD_ISSET p.keyer eoffds then FD_CLR p.keyer fds else fds
  let fds := if FD_ISSET p.control eoffds then FD_CLR p.control fds else fds
  let fds := if FD_ISSET p.radio1 eoffds then FD_CLR p.radio1 fds else fds
  let fds := if FD_ISSET p.radio2 eoffds then FD_CLR p.radio2 fds else fds
  let fds := if FD_ISSET p.fsk1 eoffds then FD_CLR p.fsk1 fds else fds
  let fds := if FD_ISSET p.fsk2 eoffds then FD_CLR p.fsk2 fds else fds
  let fds := if FD_ISSET p.winkey eoffds then FD_CLR p.winkey fds else fds
  let fds := if FD_ISSET p.keyboard eoffds then FD_CLR p.keyboard fds else fds
  fds

/-- `select(20, &fds, NULL, NULL, &tv)` once it has returned without error:
of the descriptors waited for, those the environment has ready stay in `fds`. -/
def select (fds ready : fd_set) : fd_set :=
  fun x => fds x && ready x

/-- The variables of `main` that live across cycles. -/
structure loop_state where
  framepos : Nat
  frame : frame_t
  sequencepos : Nat
  controlendbyte : Nat
  eoffds : fd_set

/-- What the environment does in one cycle: the descriptors it has ready
when `select` returns, the outcome of each one-byte `read` (`some b` when the
read returned 1 and stored `b`, `none` otherwise), and the contents of the
uninitialised local `sequence`. -/
structure cycle_env where
  ready : fd_set
  keyer : Option Nat
  control : Option Nat
  radio1 : Option Nat
  radio2 : Option Nat
  fsk1 : Option Nat
  fsk2 : Option Nat
  winkey : Option Nat
  sequence : sequence_t

/-- The device side of one cycle. -/
structure keyer_result where
  framepos : Nat
  frame : frame_t
  sequencepos : Nat
  writes : List write_event

/-- Check if there is new input from keyer (lines 536-547). -/
def keyer_input (p : ports) (st : loop_state) (fds : fd_set) (r : Option Nat) : keyer_result :=
  if FD_ISSET p.keyer fds then
    let rd : frame_t × Nat :=
      match r with
      | some b => (store st.frame st.framepos b, st.framepos + 1)
      | none => (st.frame, st.framepos)
    if rd.2 ≥ 4 then
      let d := decode_frame st.sequencepos rd.1 p
      { framepos := 0, frame := d.frame, sequencepos := d.sequencepos, writes := d.writes }
    else
      { framepos := rd.2, frame := rd.1, sequencepos := st.sequencepos, writes := [] }
  else
    { framepos := st.framepos, frame := st.frame, sequencepos := st.sequencepos, writes := [] }

/-- The bookkeeping after `read(fd, &data, 1)` on a pty: a successful read
takes the descriptor out of `eoffds` (`FD_CLR`), a failed read on a descriptor
that is in `fds` after `select` puts it in (`FD_SET`). -/
def eof_update (fd : Int) (r : Option Nat) (fds eoffds : fd_set) : fd_set :=
  match r with
  | some _ => FD_CLR fd eoffds
  | none => if FD_ISSET fd fds then FD_SET fd eoffds else eoffds

/-- What one cycle does: the state left for the next cycle, the bytes written
to the ptys, the sequence as built, and the buffers handed to
`write(ports.keyer, ...)`. -/
structure cycle_result where
  state : loop_state
  pty_writes : List write_event
  sequence : sequence_t
  keyer_writes : List (List Nat)

/-- `if (read(fd, &data, 1) == 1) set(sequence, data);`: a byte that was read
is folded into the sequence by the setter of its port. -/
def on_read (r : Option Nat) (seq : sequence_t) (set : sequence_t → Nat → sequence_t) :
    sequence_t :=
  match r with
  | some data => set seq data
  | none => seq

/-- One pass through the body of `while (1)` in `main`. -/
def main_cycle (allfds : fd_set) (p : ports) (st : loop_state) (env : cycle_env) :
    cycle_result :=
  let fds := select (wait_fds allfds st.eoffds p) env.ready
  let k := keyer_input p st fds env.keyer
  let sequence := sequence_init env.sequence
  let c : sequence_t × Nat :=
    match env.control with
    | some data => control_input st.controlendbyte sequence data
    | none => (sequence, st.controlendbyte)
  let sequence := c.1
  let eoffds := eof_update p.control env.control fds st.eoffds
  let sequence := on_read env.radio1 sequence (fun seq data => sequence_set_radio seq 1 0 data)
  let eoffds := eof_update p.radio1 env.radio1 fds eoffds
  let sequence := on_read env.radio2 sequence (fun seq data => sequence_set_radio seq 2 0 data)
  let eoffds := eof_update p.radio2 env.radio2 fds eoffds
  let sequence := on_read env.fsk1 sequence (fun seq data => sequence_set_fsk seq 1 data)
  let eoffds := eof_update p.fsk1 env.fsk1 fds eoffds
  let sequence := on_read env.fsk2 sequence (fun seq data => sequence_set_fsk seq 2 data)
  let eoffds := eof_update p.fsk2 env.fsk2 fds eoffds
  let sequence := on_read env.winkey sequence (fun seq data => sequence_set_winkey seq data)
  let eoffds := eof_update p.winkey env.winkey fds eoffds
  let sent : sequence_t × List (List Nat) :=
    if frames_in_sequence sequence ≠ 0 then
      let sequence := sequence_set_rts sequence 1
      let sequence := sequence_set_rts sequence 2
      (sequence, [send_sequence sequence])
    else (sequence, [])
  { state :=
      { framepos := k.framepos, frame := k.frame, sequencepos := k.sequencepos,
        controlendbyte := c.2, eoffds := eoffds },
    pty_writes := k.writes,
    sequence := sent.1,
    keyer_writes := sent.2 }

/-- The six ptys `main` reads from, in the order it reads them. -/
def input_endpoints : List port_id :=
  [port_id.control, port_id.radio1, port_id.radio2, port_id.fsk1, port_id.fsk2, port_id.winkey]

/-- The file descriptor of a port. -/
def port_fd (p : ports) : port_id → Int
  | .keyer => p.keyer
  | .control => p.control
  | .radio1 => p.radio1
  | .radio2 => p.radio2
  | .fsk1 => p.fsk1
  | .fsk2 => p.fsk2
  | .winkey => p.winkey
  | .keyboard => p.keyboard

/-- The outcome of this cycle's `read` on a port (`main` never reads the
keyboard pty). -/
def env_read (env : cycle_env) : port_id → Option Nat
  | .keyer => env.keyer
  | .control => env.control
  | .radio1 => env.radio1
  | .radio2 => env.radio2
  | .fsk1 => env.fsk1
  | .fsk2 => env.fsk2
  | .winkey => env.winkey
  | .keyboard => none

/-- Some pty yielded a byte this cycle. -/
def yields (env : cycle_env) : Bool :=
  env.control.isSome || env.radio1.isSome || env.radio2.isSome || env.fsk1.isSome ||
    env.fsk2.isSome || env.winkey.isSome

/-- The frame an endpoint's byte goes to: R1 and R2 slot 0, Control 1,
Winkey 2, FSK-1 3, FSK-2 4. -/
def endpoint_slot : port_id → Nat
  | .control => 1
  | .winkey => 2
  | .fsk1 => 3
  | .fsk2 => 4
  | _ => 0

/-- An endpoint of the given slot yielded a byte this cycle. -/
def slot_yields (env : cycle_env) (k : Nat) : Bool :=
  input_endpoints.any (fun e => (env_read env e).isSome && endpoint_slot e == k)

/-- The highest slot among the endpoints that yielded a byte (0 if none). -/
def highest_slot (env : cycle_env) : Nat :=
  ((input_endpoints.filter (fun e => (env_read env e).isSome)).map endpoint_slot).foldr max 0

/-- The setter call made for the outcome of one `read`, if any. -/
def read_call (r : Option Nat) (call : Nat → setter_call) : List setter_call :=
  match r with
  | some data => [call data]
  | none => []

/-- The setter calls one cycle makes for the bytes read, in the order `main`
makes them. -/
def cycle_calls (controlendbyte : Nat) (env : cycle_env) : List setter_call :=
  read_call env.control
      (fun data => setter_call.control data (control_framer controlendbyte data).1.valid) ++
    (read_call env.radio1 (fun data => setter_call.radio 1 0 data) ++
      (read_call env.radio2 (fun data => setter_call.radio 2 0 data) ++
        (read_call env.fsk1 (fun data => setter_call.fsk 1 data) ++
          (read_call env.fsk2 (fun data => setter_call.fsk 2 data) ++
            read_call env.winkey (fun data => setter_call.winkey data)))))

/-- Set flags whenever sending a sequence (lines 624-626). -/
def flagged (seq : sequence_t) : sequence_t :=
  sequence_set_rts (sequence_set_rts seq 1) 2

/-- The sequence as the reads of one cycle build it, before the flags are set. -/
def built_sequence (controlendbyte : Nat) (env : cycle_env) : sequence_t :=
  apply_calls (sequence_init env.sequence) (cycle_calls controlendbyte env)

/-- The logical channel a setter call feeds, for the calls `main` makes on
input from a pty: Control (frame 1), R1 and R2 (frame 0), FSK-1 (frame 3),
FSK-2 (frame 4), Winkey (frame 2). -/
def channel_of : setter_call → Option port_id
  | .control _ _ => some port_id.control
  | .radio radio frame _ =>
    if frame = 0 then
      if radio = 1 then some port_id.radio1
      else if radio = 2 then some port_id.radio2
      else none
    else none
  | .fsk radio _ =>
    if radio = 1 then some port_id.fsk1
    else if radio = 2 then some port_id.fsk2
    else none
  | .winkey _ => some port_id.winkey
  | _ => none

/-! ## Derived notions used in the statements -/

/-- The byte a channel decodes to: bit 7 of the data byte is cleared unless
the channel's MSB bit of the synchro byte is set. -/
def decoded_byte (byte msb : Nat) : Nat :=
  if msb ≠ 0 then byte else byte &&& 0x7F

/-- The port a radio number stands for. -/
def radio_port (r : Nat) : port_id :=
  if r = 1 then port_id.radio1 else port_id.radio2

/-- The file descriptor of a radio's pty. -/
def radio_fd (p : ports) (r : Nat) : Int :=
  if r = 1 then p.radio1 else p.radio2

/-- A frame from the device that opens a cycle: bits 7 and 6 of the synchro
byte clear, neither radio channel valid. -/
abbrev flags_frame (f : frame_t) : Prop :=
  f 0 &&& 0xC0 = 0 ∧ f 0 &&& SYNCHRO_VALID_R1 = 0 ∧ f 0 &&& SYNCHRO_VALID_R2 = 0

/-- A frame from the device that continues a cycle (SYNCHRO_SEQUENCE set),
with neither radio channel valid and the shared channel valid and carrying
`x`: byte 3 holds `x` with bit 7 forced to 1, and the shared MSB bit of the
synchro byte is bit 7 of `x`. -/
abbrev shared_frame (f : frame_t) (x : Nat) : Prop :=
  f 0 &&& SYNCHRO_SEQUENCE ≠ 0 ∧ f 0 &&& SYNCHRO_VALID_R1 = 0 ∧ f 0 &&& SYNCHRO_VALID_R2 = 0 ∧
  f 0 &&& SYNCHRO_VALID_SHARED ≠ 0 ∧ f 3 = 0x80 ||| x ∧
  (f 0 &&& SYNCHRO_MSB_SHARED ≠ 0 ↔ x &&& 0x80 ≠ 0)

/-- The datum of a channel as the specification words it: the low 7 bits of
the data byte combined with the channel's MSB-carry bit of byte 0 as bit 7,
`(byte & 0x7F) | (0x80 if the MSB-carry bit is set else 0)`. -/
def recover_byte (byte carry : Nat) : Nat :=
  (byte &&& 0x7F) ||| (if carry ≠ 0 then 0x80 else 0)

/-- The flags datum of frame 0 as it is recovered from the wire: byte 3's low
7 bits combined with the shared MSB-carry bit of byte 0. -/
def flags_datum (seq : sequence_t) : Nat :=
  recover_byte (frame_at seq 0 3) (frame_at seq 0 0 &&& SYNCHRO_MSB_SHARED)

/-- The bits a data setter ORs into the synchro byte of its frame. -/
def sync_mask : setter_call → Nat
  | .radio radio _ data =>
    (if data &&& 0x080 ≠ 0 then (if radio = 1 then SYNCHRO_MSB_R1 else SYNCHRO_MSB_R2) else 0x00)
      ||| (if radio = 1 then SYNCHRO_VALID_R1 else SYNCHRO_VALID_R2)
  | .control data valid =>
    (if data &&& 0x080 ≠ 0 then SYNCHRO_MSB_SHARED else 0x00)
      ||| (if valid ≠ 0 then SYNCHRO_VALID_SHARED else 0x00)
  | .winkey data =>
    (if data &&& 0x080 ≠ 0 then SYNCHRO_MSB_SHARED else 0x00) ||| SYNCHRO_VALID_SHARED
  | .fsk _ data =>
    (if data &&& 0x080 ≠ 0 then SYNCHRO_MSB_SHARED else 0x00) ||| SYNCHRO_VALID_SHARED
  | _ => 0

/-- The index of the data byte a data setter writes. -/
def data_index : setter_call → Nat
  | .radio radio frame _ => radio + 4 * frame
  | .control _ _ => 7
  | .winkey _ => 11
  | .fsk radio _ => 11 + radio * 4
  | _ => 3

/-- The data argument of a data setter. -/
def call_data : setter_call → Nat
  | .radio _ _ data => data
  | .control data _ => data
  | .winkey data => data
  | .fsk _ data => data
  | _ => 0

/-- The flag bit a flag setter ORs into the flags byte. -/
def flag_mask : setter_call → Nat
  | .rts radio => if radio = 1 then FLAGS_R1_RTS else if radio = 2 then FLAGS_R2_RTS else 0
  | .ptt radio => if radio = 1 then FLAGS_R1_PTT else if radio = 2 then FLAGS_R2_PTT else 0
  | .fsk_ext radio =>
    if radio = 1 then FLAGS_R1_FSK_EXT else if radio = 2 then FLAGS_R2_FSK_EXT else 0
  | .cw radio => if radio = 1 then FLAGS_R1_CW else if radio = 2 then FLAGS_R2_CW else 0
  | _ => 0

/-- The call is one of the four flag setters. -/
def is_flag_call : setter_call → Bool
  | .rts _ => true
  | .ptt _ => true
  | .fsk_ext _ => true
  | .cw _ => true
  | _ => false

/-- The radio argument of a flag setter. -/
def flag_radio : setter_call → Nat
  | .rts radio => radio
  | .ptt radio => radio
  | .fsk_ext radio => radio
  | .cw radio => radio
  | _ => 0

/-- The index of the data byte of a logical channel. -/
def channel_index : port_id → Nat
  | .control => 7
  | .radio1 => 1
  | .radio2 => 2
  | .fsk1 => 15
  | .fsk2 => 19
  | .winkey => 11
  | _ => 0

/-- Bit 7 of every byte of the five frames: clear in a synchro byte, set in a data byte. -/
def framing_ok (q : sequence_t) : Prop :=
  ∀ j, j < 20 → (q j).testBit 7 = decide (j % 4 ≠ 0)

/-- The sequence positions successive frames are decoded at. -/
def dispatch_positions (sequencepos : Nat) (frames : List frame_t) (p : ports) : List Nat :=
  match frames with
  | [] => []
  | f :: fs =>
    decode_sync sequencepos f ::
      dispatch_positions (decode_frame sequencepos f p).sequencepos fs p

/-- The frames of a sequence that `send_sequence` transmits, first to last. -/
def sent_frames (seq : sequence_t) : List frame_t :=
  (List.range (frames_in_sequence seq)).map (frame_at seq)

/-- The synchro bytes keep the decoder in phase: frame 0 has bits 7 and 6
clear (it resynchronizes), frames 1..4 carry SYNCHRO_SEQUENCE. -/
def phase_ok (q : sequence_t) : Prop :=
  (q 0).testBit 7 = false ∧ (q 0).testBit 6 = false ∧
    ∀ k, 1 ≤ k → k ≤ 4 → (q (4 * k)).testBit 6 = true

/-! ## Basic facts -/

theorem store_apply (a : Nat → Nat) (i v j : Nat) :
    store a i v j = if j = i then v % 256 else a j := rfl

/-- A loop that stores the same byte at each index of a list. -/
theorem foldl_store_apply (l : List Nat) (v : Nat) (s : Nat → Nat) (j : Nat) :
    (l.foldl (fun s i => store s i v) s) j = if j ∈ l then v % 256 else s j := by
  induction l generalizing s with
  | nil => simp
  | cons a l ih =>
    simp only [List.foldl_cons, ih, store_apply, List.mem_cons]
    by_cases h1 : j ∈ l <;> by_cases h2 : j = a <;> simp [h1, h2]

/-- The contents of a freshly initialised sequence. -/
theorem sequence_init_apply (s : sequence_t) (j : Nat) :
    sequence_init s j =
      if j = 20 then 0 else if j = 0 then 0x08 else
      if j = 4 ∨ j = 8 ∨ j = 12 ∨ j = 16 then 0x40 else
      if j < 20 then 0x80 else s j := by
  simp only [sequence_init, store_apply, foldl_store_apply, List.mem_range, List.mem_cons,
    List.mem_singleton, List.not_mem_nil, or_false]

/-! ## Byte arithmetic -/

set_option maxRecDepth 100000 in
theorem byte_or80_and7F (v : Nat) (hv : v < 256) (h : v &&& 0x80 = 0) :
    (0x80 ||| v) &&& 0x7F = v := by
  have key : ∀ w, w < 256 → w &&& 0x80 = 0 → (0x80 ||| w) &&& 0x7F = w := by decide
  exact key v hv h

set_option maxRecDepth 100000 in
theorem byte_or80_of_msb (v : Nat) (hv : v < 256) (h : v &&& 0x80 ≠ 0) :
    0x80 ||| v = v := by
  have key : ∀ w, w < 256 → w &&& 0x80 ≠ 0 → 0x80 ||| w = w := by decide
  exact key v hv h

set_option maxRecDepth 100000 in
theorem byte_or80_lt (v : Nat) (hv : v < 256) : 0x80 ||| v < 256 := by
  have key : ∀ w, w < 256 → 0x80 ||| w < 256 := by decide
  exact key v hv

theorem byte_or80_mod (v : Nat) (hv : v < 256) : (0x80 ||| v) % 256 = 0x80 ||| v :=
  Nat.mod_eq_of_lt (byte_or80_lt v hv)

/-! ## The decoder, stage by stage -/

theorem and7F_mod (x : Nat) : (x &&& 0x7F) % 256 = x &&& 0x7F :=
  Nat.mod_eq_of_lt (lt_of_le_of_lt Nat.and_le_right (by decide))

theorem decode_r1_writes (f : frame_t) (p : ports) :
    (decode_r1 f p).2 =
      if f 0 &&& SYNCHRO_VALID_R1 ≠ 0 then
        write_port p.radio1 port_id.radio1 (decoded_byte (f 1) (f 0 &&& SYNCHRO_MSB_R1))
      else [] := by
  unfold decode_r1 decoded_byte
  by_cases hv : f 0 &&& SYNCHRO_VALID_R1 = 0 <;> by_cases hm : f 0 &&& SYNCHRO_MSB_R1 = 0 <;>
    simp [hv, hm, store_apply, and7F_mod]

theorem decode_r1_frame (f : frame_t) (p : ports) (j : Nat) (hj : j ≠ 1) :
    (decode_r1 f p).1 j = f j := by
  unfold decode_r1
  by_cases hv : f 0 &&& SYNCHRO_VALID_R1 = 0 <;> by_cases hm : f 0 &&& SYNCHRO_MSB_R1 = 0 <;>
    simp [hv, hm, store_apply, hj]

theorem decode_r2_writes (f : frame_t) (p : ports) :
    (decode_r2 f p).2 =
      if f 0 &&& SYNCHRO_VALID_R2 ≠ 0 then
        write_port p.radio2 port_id.radio2 (decoded_byte (f 2) (f 0 &&& SYNCHRO_MSB_R2))
      else [] := by
  unfold decode_r2 decoded_byte
  by_cases hv : f 0 &&& SYNCHRO_VALID_R2 = 0 <;> by_cases hm : f 0 &&& SYNCHRO_MSB_R2 = 0 <;>
    simp [hv, hm, store_apply, and7F_mod]

theorem decode_r2_frame (f : frame_t) (p : ports) (j : Nat) (hj : j ≠ 2) :
    (decode_r2 f p).1 j = f j := by
  unfold decode_r2
  by_cases hv : f 0 &&& SYNCHRO_VALID_R2 = 0 <;> by_cases hm : f 0 &&& SYNCHRO_MSB_R2 = 0 <;>
    simp [hv, hm, store_apply, hj]

theorem decode_shared_writes (q : Nat) (f : frame_t) (p : ports) :
    (decode_shared q f p).2 =
      if f 0 &&& SYNCHRO_VALID_SHARED ≠ 0 ∨ q = 1 then
        shared_switch q (decoded_byte (f 3) (f 0 &&& SYNCHRO_MSB_SHARED)) p
      else [] := by
  unfold decode_shared decoded_byte
  by_cases hv : f 0 &&& SYNCHRO_VALID_SHARED ≠ 0 ∨ q = 1 <;>
    by_cases hm : f 0 &&& SYNCHRO_MSB_SHARED = 0 <;>
    simp only [hv, hm, store_apply, and7F_mod, if_true, if_false, ne_eq, not_true_eq_false,
      not_false_eq_true]

/-- The shared stage reads only bytes 0 and 3 of the frame. -/
theorem decode_shared_writes_congr (q : Nat) (f g : frame_t) (p : ports)
    (h0 : g 0 = f 0) (h3 : g 3 = f 3) :
    (decode_shared q g p).2 = (decode_shared q f p).2 := by
  rw [decode_shared_writes, decode_shared_writes, h0, h3]

/-- The writes of one `decode_frame` call, read off the frame as received. -/
theorem decode_frame_writes (pos : Nat) (f : frame_t) (p : ports) :
    (decode_frame pos f p).writes =
      (decode_r1 f p).2 ++ (decode_r2 f p).2 ++ (decode_shared (decode_sync pos f) f p).2 := by
  have e2 : (decode_r2 (decode_r1 f p).1 p).2 = (decode_r2 f p).2 := by
    rw [decode_r2_writes, decode_r2_writes, decode_r1_frame f p 0 (by decide),
      decode_r1_frame f p 2 (by decide)]
  have e3 : (decode_shared (decode_sync pos f) (decode_r2 (decode_r1 f p).1 p).1 p).2 =
      (decode_shared (decode_sync pos f) f p).2 := by
    apply decode_shared_writes_congr
    · rw [decode_r2_frame _ p 0 (by decide), decode_r1_frame f p 0 (by decide)]
    · rw [decode_r2_frame _ p 3 (by decide), decode_r1_frame f p 3 (by decide)]
  simp only [decode_frame, e2, e3]

theorem decode_frame_sequencepos (pos : Nat) (f : frame_t) (p : ports) :
    (decode_frame pos f p).sequencepos = decode_sync pos f + 1 := rfl

/-! ## Radio-byte round trip -/

/-- C1. Radio-byte round trip: for every byte `v`, radio `r` in {1,2} and frame
index `i` in 0..4, after `sequence_init` and `sequence_set_radio seq r i v`,
`decode_frame` on frame `i` (radio `r`'s pty open, any prior sequence
position, any other ports) writes exactly the byte `v` to radio `r`'s pty and
writes nothing else, in particular nothing to the other radio. -/
theorem C1_radio_round_trip (s : sequence_t) (v r i pos : Nat) (p : ports)
    (hv : v < 256) (hr : r = 1 ∨ r = 2) (hi : i ≤ 4) (hp : 0 ≤ radio_fd p r) :
    (decode_frame pos (frame_at (sequence_set_radio (sequence_init s) r i v) i) p).writes
      = [⟨radio_port r, v⟩] := by
  have h3 := byte_or80_mod v hv
  have h4 := Nat.mod_eq_of_lt hv
  by_cases hpos : pos = 1
  · subst hpos
    rcases hr with rfl | rfl <;> interval_cases i <;> by_cases hm : v &&& 0x80 = 0 <;>
    simp +decide [decode_frame, frame_at, sequence_set_radio, sequence_init_apply, store_apply,
      decode_r1, decode_r2, decode_shared, shared_switch, decode_sync, write_port, radio_port,
      radio_fd, hm,
      h3, h4, byte_or80_and7F v hv, byte_or80_of_msb v hv] at hp ⊢ <;> exact hp
  · rcases hr with rfl | rfl <;> interval_cases i <;> by_cases hm : v &&& 0x80 = 0 <;>
    simp +decide [decode_frame, frame_at, sequence_set_radio, sequence_init_apply, store_apply,
      decode_r1, decode_r2, decode_shared, shared_switch, decode_sync, write_port, radio_port,
      radio_fd, hm,
      h3, h4, hpos, byte_or80_and7F v hv, byte_or80_of_msb v hv] at hp ⊢ <;> exact hp

/-- C1 at `v = 0xC1`, radio 2, frame 3, prior position 1, all ptys open. -/
theorem C1_radio_round_trip_witness :
    (0xC1 < 256 ∧ (2 = 1 ∨ 2 = 2) ∧ 3 ≤ 4 ∧ (0 : Int) ≤ radio_fd ⟨3, 4, 5, 6, 7, 8, 9, 10⟩ 2) ∧
    (decode_frame 1
        (frame_at (sequence_set_radio (sequence_init (fun _ => 0)) 2 3 0xC1) 3)
        ⟨3, 4, 5, 6, 7, 8, 9, 10⟩).writes = [⟨port_id.radio2, 0xC1⟩] :=
  ⟨by decide,
    C1_radio_round_trip (fun _ => 0) 0xC1 2 3 1 ⟨3, 4, 5, 6, 7, 8, 9, 10⟩
      (by decide) (by decide) (by decide) (by decide)⟩

/-! ## Frame count -/

/-- Every permitted call raises the stored count to at least one more than
its target frame index and changes it in no other way. -/
theorem frames_apply_call (seq : sequence_t) (c : setter_call) (h : call_ok c = true) :
    frames_in_sequence (apply_call seq c) = max (frames_in_sequence seq) (target_frame c + 1) := by
  cases c with
  | rts radio =>
    simp only [apply_call, sequence_set_rts, frames_in_sequence, target_frame]
    split_ifs <;> simp [store_apply] at * <;> omega
  | ptt radio =>
    simp only [apply_call, sequence_set_ptt, frames_in_sequence, target_frame]
    split_ifs <;> simp [store_apply] at * <;> omega
  | fsk_ext radio =>
    simp only [apply_call, sequence_set_fsk_ext, frames_in_sequence, target_frame]
    split_ifs <;> simp [store_apply] at * <;> omega
  | cw radio =>
    simp only [apply_call, sequence_set_cw, frames_in_sequence, target_frame]
    split_ifs <;> simp [store_apply] at * <;> omega
  | radio radio frame data =>
    simp only [call_ok, Bool.and_eq_true, Bool.or_eq_true, beq_iff_eq, decide_eq_true_eq] at h
    obtain ⟨hr, hf⟩ := h
    have e1 : ¬ (20 = radio + 4 * frame) := by omega
    have e2 : ¬ (20 = 4 * frame) := by omega
    have e3 : (frame + 1) % 256 = frame + 1 := by omega
    simp only [apply_call, sequence_set_radio, frames_in_sequence, target_frame]
    split_ifs <;> simp [store_apply, e1, e2, e3] at * <;> omega
  | control data valid =>
    simp only [apply_call, sequence_set_control, frames_in_sequence, target_frame]
    split_ifs <;> simp [store_apply] at * <;> omega
  | winkey data =>
    simp only [apply_call, sequence_set_winkey, frames_in_sequence, target_frame]
    split_ifs <;> simp [store_apply] at * <;> omega
  | fsk radio data =>
    simp only [call_ok, Bool.or_eq_true, beq_iff_eq] at h
    have e1 : ¬ (20 = 11 + radio * 4) := by omega
    have e2 : ¬ (20 = 8 + radio * 4) := by omega
    have e3 : (3 + radio) % 256 = 3 + radio := by omega
    simp only [apply_call, sequence_set_fsk, frames_in_sequence, target_frame]
    split_ifs <;> simp [store_apply, e1, e2, e3] at * <;> omega

/-- The stored count after a list of permitted calls. -/
theorem frames_apply_calls (calls : List setter_call) (seq : sequence_t)
    (h : ∀ c ∈ calls, call_ok c = true) :
    frames_in_sequence (apply_calls seq calls) =
      max (frames_in_sequence seq) ((calls.map (fun c => target_frame c + 1)).foldr max 0) := by
  induction calls generalizing seq with
  | nil => simp [apply_calls]
  | cons c cs ih =>
    have hc : call_ok c = true := h c (List.mem_cons_self c cs)
    have hcs : ∀ d ∈ cs, call_ok d = true := fun d hd => h d (List.mem_cons_of_mem c hd)
    have := ih (apply_call seq c) hcs
    simp only [apply_calls, List.foldl_cons, List.map_cons, List.foldr_cons] at this ⊢
    rw [this, frames_apply_call seq c hc]
    omega

/-- For a non-empty list, the highest `target + 1` is one plus the highest target. -/
theorem foldr_max_succ (calls : List setter_call) (h : calls ≠ []) :
    (calls.map (fun c => target_frame c + 1)).foldr max 0 = 1 + highest_target calls := by
  induction calls with
  | nil => exact absurd rfl h
  | cons c cs ih =>
    cases cs with
    | nil => simp [highest_target]; omega
    | cons d ds =>
      have := ih (List.cons_ne_nil d ds)
      simp only [highest_target, List.map_cons, List.foldr_cons] at this ⊢
      rw [this]
      omega

theorem frames_sequence_init (s : sequence_t) : frames_in_sequence (sequence_init s) = 0 := by
  simp [frames_in_sequence, sequence_init_apply]

/-- C2. Frame-count invariant: for every finite list of permitted setter calls
(flag setters, `sequence_set_radio` with radio 1 or 2 and frame 0..4,
`sequence_set_control`, `sequence_set_winkey`, `sequence_set_fsk` with radio 1
or 2) applied to a sequence produced by `sequence_init`, `frames_in_sequence`
is 0 for the empty list and otherwise one plus the highest frame index
targeted by a call of the list. -/
theorem C2_frame_count_invariant (s : sequence_t) (calls : List setter_call)
    (h : ∀ c ∈ calls, call_ok c = true) :
    frames_in_sequence (apply_calls (sequence_init s) calls) =
      if calls = [] then 0 else 1 + highest_target calls := by
  rw [frames_apply_calls calls (sequence_init s) h, frames_sequence_init]
  by_cases hc : calls = []
  · subst hc
    simp
  · rw [if_neg hc, foldr_max_succ calls hc]
    omega

/-- C2 on a Winkey byte, a radio 1 byte in frame 0 and an RTS flag: 3 frames. -/
theorem C2_frame_count_invariant_witness :
    (∀ c ∈ [setter_call.winkey 0x41, setter_call.radio 1 0 0x42, setter_call.rts 1],
        call_ok c = true) ∧
    frames_in_sequence
        (apply_calls (sequence_init (fun _ => 0))
          [setter_call.winkey 0x41, setter_call.radio 1 0 0x42, setter_call.rts 1]) = 3 :=
  ⟨by decide,
    C2_frame_count_invariant (fun _ => 0)
      [setter_call.winkey 0x41, setter_call.radio 1 0 0x42, setter_call.rts 1] (by decide)⟩

/-- C3. Frame-count monotonicity: `frames_in_sequence` is 0 right after
`sequence_init`; and for every sequence state (any stored count) and every
single permitted setter call targeting frame index `i`, the count after the
call is at least `i + 1` and not smaller than the count before the call. -/
theorem C3_frame_count_monotone (s seq : sequence_t) (c : setter_call)
    (h : call_ok c = true) :
    frames_in_sequence (sequence_init s) = 0 ∧
    target_frame c + 1 ≤ frames_in_sequence (apply_call seq c) ∧
    frames_in_sequence seq ≤ frames_in_sequence (apply_call seq c) := by
  rw [frames_apply_call seq c h, frames_sequence_init]
  omega

/-- C3 on a sequence whose stored count is 2, for an FSK byte of radio 2
(frame 4): the count becomes 5. -/
theorem C3_frame_count_monotone_witness :
    call_ok (setter_call.fsk 2 0x55) = true ∧
    frames_in_sequence (sequence_init (fun _ => 0xFF)) = 0 ∧
    4 + 1 ≤ frames_in_sequence (apply_call (store (fun _ => 0) 20 2) (setter_call.fsk 2 0x55)) ∧
    2 ≤ frames_in_sequence (apply_call (store (fun _ => 0) 20 2) (setter_call.fsk 2 0x55)) :=
  ⟨by decide,
    C3_frame_count_monotone (fun _ => 0xFF) (store (fun _ => 0) 20 2) (setter_call.fsk 2 0x55)
      (by decide)⟩

/-- C4. For every radio value `v` and control value `w`, after `sequence_init`,
`sequence_set_radio seq 1 0 v` and `sequence_set_control seq w 0` the frame
count is 2, the buffer handed to the device write has length exactly 8, and
the shared-valid bit (0x08) of frame 1's synchronization byte `seq[4]` is
clear. -/
theorem C4_two_frames (s : sequence_t) (v w : Nat) :
    frames_in_sequence
        (sequence_set_control (sequence_set_radio (sequence_init s) 1 0 v) w 0) = 2 ∧
    (send_sequence
        (sequence_set_control (sequence_set_radio (sequence_init s) 1 0 v) w 0)).length = 8 ∧
    (sequence_set_control (sequence_set_radio (sequence_init s) 1 0 v) w 0) 4
        &&& SYNCHRO_VALID_SHARED = 0 := by
  have hc : frames_in_sequence
      (sequence_set_control (sequence_set_radio (sequence_init s) 1 0 v) w 0) = 2 := by
    have h1 := frames_apply_call (sequence_init s) (setter_call.radio 1 0 v) rfl
    have h2 := frames_apply_call (sequence_set_radio (sequence_init s) 1 0 v)
      (setter_call.control w 0) rfl
    simp only [apply_call, target_frame, frames_sequence_init] at h1 h2
    rw [h2, h1]
    rfl
  refine ⟨hc, ?_, ?_⟩
  · simp [send_sequence, hc]
  · by_cases hm : w &&& 0x80 = 0 <;>
      simp +decide [sequence_set_control, sequence_set_radio, sequence_init_apply, store_apply, hm]

/-- C4 at `v = 0x41`, `w = 0x05`: the 8 bytes handed to the device write. -/
theorem C4_two_frames_witness :
    send_sequence
        (sequence_set_control (sequence_set_radio (sequence_init (fun _ => 0)) 1 0 0x41) 0x05 0)
      = [0x28, 0xC1, 0x80, 0x80, 0x40, 0x80, 0x80, 0x85] ∧
    (send_sequence
        (sequence_set_control (sequence_set_radio (sequence_init (fun _ => 0)) 1 0 0x41) 0x05
          0)).length = 8 :=
  ⟨by decide, (C4_two_frames (fun _ => 0) 0x41 0x05).2.1⟩

/-! ## Control framer -/

set_option maxRecDepth 100000 in
theorem byte_or_end (b : Nat) (hb : b < 256) :
    (b ||| 0x80) % 256 = b ||| 0x80 ∧ b ||| 0x80 ≠ 0 := by
  have key : ∀ w, w < 256 → (w ||| 0x80) % 256 = w ||| 0x80 ∧ w ||| 0x80 ≠ 0 := by decide
  exact key b hb

/-- Inside a command with end byte `t`: payload bytes other than `t` go out
valid, then `t` closes the command. -/
theorem control_run_payload (t : Nat) (ht : t ≠ 0) (payload : List Nat)
    (hp : ∀ x ∈ payload, x ≠ t) :
    control_run t (payload ++ [t]) =
      (payload.map (fun x => (⟨x, 1⟩ : control_call)) ++ [⟨t, 0⟩], 0) := by
  induction payload with
  | nil => simp [control_run, control_framer, ht]
  | cons x xs ih =>
    have hx : x ≠ t := hp x (List.mem_cons_self x xs)
    have hx2 : ¬ (t = x) := fun e => hx e.symm
    have hxs : ∀ y ∈ xs, y ≠ t := fun y hy => hp y (List.mem_cons_of_mem x hy)
    have := ih hxs
    simp only [List.cons_append, control_run, control_framer, ht, hx2, if_false, List.map_cons]
    rw [show xs.append [t] = xs ++ [t] from rfl, this]

/-- C5. Control framer command framing: starting with no command open
(`controlendbyte = 0`), for every non-zero first byte `b` and every payload
none of whose bytes equals `b | 0x80`, the bytes `b`, payload, `b | 0x80` read
one per cycle produce the `sequence_set_control` calls `(b, valid=0)`,
`(x, valid=1)` for each payload byte `x` in order, and `(b | 0x80, valid=0)`,
and no command is open after the last byte. -/
theorem C5_control_framing (b : Nat) (payload : List Nat) (hb : b < 256) (hb0 : b ≠ 0)
    (hp : ∀ x ∈ payload, x ≠ b ||| 0x80) :
    control_run 0 (b :: (payload ++ [b ||| 0x80])) =
      ((⟨b, 0⟩ : control_call) ::
        (payload.map (fun x => (⟨x, 1⟩ : control_call)) ++ [⟨b ||| 0x80, 0⟩]), 0) := by
  obtain ⟨h1, h2⟩ := byte_or_end b hb
  have := control_run_payload (b ||| 0x80) h2 payload hp
  simp only [control_run, control_framer, if_true, hb0, ne_eq, not_false_eq_true, h1, this]

/-- C5 on the GET VERSION style command `[0x05, 0x10, 0x20, 0x85]`. -/
theorem C5_control_framing_witness :
    (0x05 < 256 ∧ 0x05 ≠ 0 ∧ ∀ x ∈ [0x10, 0x20], x ≠ 0x05 ||| 0x80) ∧
    control_run 0 [0x05, 0x10, 0x20, 0x85] =
      ([⟨0x05, 0⟩, ⟨0x10, 1⟩, ⟨0x20, 1⟩, ⟨0x85, 0⟩], 0) :=
  ⟨by decide, C5_control_framing 0x05 [0x10, 0x20] (by decide) (by decide) (by decide)⟩

/-- C6. Control framer no-op: with no command open, a byte 0x00 produces
exactly one `sequence_set_control` call, with data 0x00 and valid=0, and
leaves no command open (`controlendbyte` stays 0x00); hence any run of 0x00
bytes is a run of complete single-byte commands. -/
theorem C6_control_nop (n : Nat) :
    control_framer 0 0 = (⟨0, 0⟩, 0) ∧
    control_run 0 [0] = ([⟨0, 0⟩], 0) ∧
    control_run 0 (List.replicate n 0) = (List.replicate n ⟨0, 0⟩, 0) := by
  refine ⟨rfl, rfl, ?_⟩
  induction n with
  | zero => rfl
  | succ k ih => simp only [List.replicate_succ, control_run, control_framer, if_true, ih,
      ne_eq, not_true_eq_false, if_false]

/-! ## Decoder sequence position -/

/-- Position 0 (FLAGS) writes nothing. -/
theorem shared_switch_zero (byte : Nat) (p : ports) : shared_switch 0 byte p = [] := rfl

/-- C7. Decoder cycle-position transition: for every prior position `pos` and
every frame `f`, if byte 0 of `f` has bits 7 and 6 both clear then `f` is
decoded at position 0 whatever `pos` was (its writes are those of a decode
from position 0, and none goes to Control, Winkey or Keyboard) and the stored
position after the call is 1; otherwise `f` is decoded at position `pos` and
the stored position after the call is `pos + 1`, with no wrap at 4. -/
theorem C7_position_transition (pos : Nat) (f : frame_t) (p : ports) :
    (f 0 &&& 0xC0 = 0 →
      decode_sync pos f = 0 ∧
      (decode_frame pos f p).sequencepos = 1 ∧
      (decode_frame pos f p).writes = (decode_frame 0 f p).writes ∧
      (decode_frame pos f p).writes = (decode_r1 f p).2 ++ (decode_r2 f p).2 ∧
      ∀ e ∈ (decode_frame pos f p).writes,
        e.port ≠ port_id.control ∧ e.port ≠ port_id.winkey ∧ e.port ≠ port_id.keyboard) ∧
    (f 0 &&& 0xC0 ≠ 0 →
      decode_sync pos f = pos ∧
      (decode_frame pos f p).sequencepos = pos + 1 ∧
      (decode_frame pos f p).writes =
        (decode_r1 f p).2 ++ (decode_r2 f p).2 ++ (decode_shared pos f p).2) := by
  constructor
  · intro h
    have hs : ∀ q, decode_sync q f = 0 := fun q => by simp [decode_sync, h]
    have hw : (decode_frame pos f p).writes = (decode_r1 f p).2 ++ (decode_r2 f p).2 := by
      rw [decode_frame_writes, hs, decode_shared_writes]
      simp [shared_switch_zero]
    refine ⟨hs pos, by rw [decode_frame_sequencepos, hs], ?_, hw, ?_⟩
    · rw [decode_frame_writes, decode_frame_writes, hs, hs]
    · intro e he
      rw [hw, decode_r1_writes, decode_r2_writes] at he
      simp only [List.mem_append] at he
      rcases he with he | he
      · split_ifs at he
        · unfold write_port at he
          split_ifs at he
          · simp only [List.mem_singleton] at he
            subst he
            exact ⟨by simp, by simp, by simp⟩
          · simp at he
        · simp at he
      · split_ifs at he
        · unfold write_port at he
          split_ifs at he
          · simp only [List.mem_singleton] at he
            subst he
            exact ⟨by simp, by simp, by simp⟩
          · simp at he
        · simp at he
  · intro h
    have hs : decode_sync pos f = pos := by simp [decode_sync, h]
    refine ⟨hs, by rw [decode_frame_sequencepos, hs], ?_⟩
    rw [decode_frame_writes, hs]

/-- C7 at prior position 3: a frame with synchro byte 0x08 is decoded at
position 0 and leaves position 1; a frame with synchro byte 0x48 is decoded at
position 3 and leaves position 4; from position 4 it leaves position 5. -/
theorem C7_position_transition_witness :
    (frame_of 0x08 0x80 0x80 0xC1 0 &&& 0xC0 = 0 ∧
      (decode_frame 3 (frame_of 0x08 0x80 0x80 0xC1) ⟨3, 4, 5, 6, 7, 8, 9, 10⟩).sequencepos = 1) ∧
    (frame_of 0x48 0x80 0x80 0xC1 0 &&& 0xC0 ≠ 0 ∧
      (decode_frame 4 (frame_of 0x48 0x80 0x80 0xC1) ⟨3, 4, 5, 6, 7, 8, 9, 10⟩).sequencepos = 5) :=
  ⟨⟨by decide,
      ((C7_position_transition 3 (frame_of 0x08 0x80 0x80 0xC1) ⟨3, 4, 5, 6, 7, 8, 9, 10⟩).1
        (by decide)).2.1⟩,
    ⟨by decide,
      ((C7_position_transition 4 (frame_of 0x48 0x80 0x80 0xC1) ⟨3, 4, 5, 6, 7, 8, 9, 10⟩).2
        (by decide)).2.1⟩⟩

/-! ## One full cycle from the device -/

theorem and_C0_of_and_40 (x : Nat) (h : x &&& 0x40 ≠ 0) : x &&& 0xC0 ≠ 0 := by
  intro h0
  apply h
  have e : (0xC0 : Nat) &&& 0x40 = 0x40 := by decide
  calc x &&& 0x40 = x &&& (0xC0 &&& 0x40) := by rw [e]
    _ = (x &&& 0xC0) &&& 0x40 := (Nat.land_assoc x 0xC0 0x40).symm
    _ = 0 := by rw [h0, Nat.zero_and]

/-- A byte sent as 7 bits plus MSB carry decodes to itself. -/
theorem decoded_byte_encoded (x m : Nat) (hx : x < 256) (h : m ≠ 0 ↔ x &&& 0x80 ≠ 0) :
    decoded_byte (0x80 ||| x) m = x := by
  unfold decoded_byte
  by_cases hm : m ≠ 0
  · rw [if_pos hm]
    exact byte_or80_of_msb x hx (h.mp hm)
  · rw [if_neg hm]
    have : x &&& 0x80 = 0 := by
      by_contra hc
      exact hm (h.mpr hc)
    exact byte_or80_and7F x hx this

theorem decode_frame_flags_frame (pos : Nat) (f : frame_t) (p : ports) (h : flags_frame f) :
    (decode_frame pos f p).sequencepos = 1 ∧ (decode_frame pos f p).writes = [] := by
  obtain ⟨h0, h1, h2⟩ := h
  have hs : decode_sync pos f = 0 := by simp [decode_sync, h0]
  refine ⟨by rw [decode_frame_sequencepos, hs], ?_⟩
  rw [decode_frame_writes, hs, decode_r1_writes, decode_r2_writes, decode_shared_writes]
  simp only [h1, h2, ne_eq, not_true_eq_false, if_false, shared_switch_zero, ite_self,
    List.append_nil]

theorem decode_frame_shared_frame (pos x : Nat) (f : frame_t) (p : ports) (hx : x < 256)
    (h : shared_frame f x) :
    (decode_frame pos f p).sequencepos = pos + 1 ∧
    (decode_frame pos f p).writes = shared_switch pos x p := by
  obtain ⟨h0, h1, h2, h3, h4, h5⟩ := h
  have hs : decode_sync pos f = pos := by
    simp only [decode_sync, and_C0_of_and_40 (f 0) h0, if_false]
  refine ⟨by rw [decode_frame_sequencepos, hs], ?_⟩
  rw [decode_frame_writes, hs, decode_r1_writes, decode_r2_writes, decode_shared_writes, h4,
    decoded_byte_encoded x _ hx h5]
  simp only [h1, h2, h3, ne_eq, not_true_eq_false, not_false_eq_true, if_false, if_true,
    true_or, List.nil_append]

/-- C8. End-to-end decode of one cycle: for every prior sequence position and
all bytes `a ≠ 0`, `b`, `c`, decoding four consecutive frames `F0..F3`, where
`F0` has the top two bits of byte 0 clear, `F1..F3` have SYNCHRO_SEQUENCE
(0x40) set, none has an R1-valid or R2-valid bit, and `F1..F3` have
shared-valid set and carry `a`, `b`, `c` in the shared slot as 7 bits plus MSB
carry, writes (Control, Winkey and Keyboard ptys open) exactly `a` to Control,
then `b` to Winkey, then `c` to Keyboard, and nothing to R1 or R2; the
position afterwards is 4. -/
theorem C8_full_cycle (pos a b c : Nat) (F0 F1 F2 F3 : frame_t) (p : ports)
    (ha0 : a ≠ 0) (ha : a < 256) (hb : b < 256) (hc : c < 256)
    (h0 : flags_frame F0) (h1 : shared_frame F1 a) (h2 : shared_frame F2 b)
    (h3 : shared_frame F3 c)
    (hpc : 0 ≤ p.control) (hpw : 0 ≤ p.winkey) (hpk : 0 ≤ p.keyboard) :
    decode_frames pos [F0, F1, F2, F3] p =
      (4, [⟨port_id.control, a⟩, ⟨port_id.winkey, b⟩, ⟨port_id.keyboard, c⟩]) := by
  obtain ⟨s0, w0⟩ := decode_frame_flags_frame pos F0 p h0
  obtain ⟨s1, w1⟩ := decode_frame_shared_frame 1 a F1 p ha h1
  obtain ⟨s2, w2⟩ := decode_frame_shared_frame 2 b F2 p hb h2
  obtain ⟨s3, w3⟩ := decode_frame_shared_frame 3 c F3 p hc h3
  simp only [decode_frames, s0, w0, s1, w1, s2, w2, s3, w3, shared_switch, write_port, ha0,
    ne_eq, not_false_eq_true, if_true, ge_iff_le, hpc, hpw, hpk, List.nil_append,
    List.append_nil, List.singleton_append, List.cons_append]

/-- C8 on the cycle Flags, Control = 'A', Winkey = 'B', Keyboard = 'C', from
prior position 2. -/
theorem C8_full_cycle_witness :
    (flags_frame (frame_of 0x08 0x80 0x80 0x80) ∧ shared_frame (frame_of 0x48 0x80 0x80 0xC1) 0x41 ∧
      shared_frame (frame_of 0x48 0x80 0x80 0xC2) 0x42 ∧
      shared_frame (frame_of 0x48 0x80 0x80 0xC3) 0x43) ∧
    decode_frames 2
        [frame_of 0x08 0x80 0x80 0x80, frame_of 0x48 0x80 0x80 0xC1,
          frame_of 0x48 0x80 0x80 0xC2, frame_of 0x48 0x80 0x80 0xC3]
        ⟨3, 4, 5, 6, 7, 8, 9, 10⟩ =
      (4, [⟨port_id.control, 0x41⟩, ⟨port_id.winkey, 0x42⟩, ⟨port_id.keyboard, 0x43⟩]) :=
  ⟨by decide,
    C8_full_cycle 2 0x41 0x42 0x43 (frame_of 0x08 0x80 0x80 0x80) (frame_of 0x48 0x80 0x80 0xC1)
      (frame_of 0x48 0x80 0x80 0xC2) (frame_of 0x48 0x80 0x80 0xC3) ⟨3, 4, 5, 6, 7, 8, 9, 10⟩
      (by decide) (by decide) (by decide) (by decide) (by decide) (by decide) (by decide)
      (by decide) (by decide) (by decide) (by decide)⟩

/-! ## Field extraction -/

set_option maxRecDepth 100000 in
theorem recover_byte_of_msb (byte : Nat) (hb : byte < 256) (h : byte &&& 0x80 ≠ 0) :
    (byte &&& 0x7F) ||| 0x80 = byte := by
  have key : ∀ w, w < 256 → w &&& 0x80 ≠ 0 → (w &&& 0x7F) ||| 0x80 = w := by decide
  exact key byte hb h

/-- Where the code and the specification formula agree: the data byte has its
bit 7 set, or the carry bit is clear. -/
theorem decoded_byte_eq_recover_byte (byte carry : Nat) (hb : byte < 256)
    (h : byte &&& 0x80 ≠ 0 ∨ carry = 0) :
    decoded_byte byte carry = recover_byte byte carry := by
  unfold decoded_byte recover_byte
  by_cases hc : carry ≠ 0
  · rw [if_pos hc, if_pos hc]
    rcases h with h | h
    · exact (recover_byte_of_msb byte hb h).symm
    · exact absurd h hc
  · rw [if_neg hc, if_neg hc, Nat.or_zero]

theorem mem_write_port (e : write_event) (fd : Int) (port : port_id) (byte : Nat) :
    e ∈ write_port fd port byte ↔ 0 ≤ fd ∧ e = ⟨port, byte⟩ := by
  unfold write_port
  by_cases h : fd ≥ 0
  · simp [h]
  · simp [h]

/-- The shared channel writes to the Control, Winkey or Keyboard pty only. -/
theorem mem_shared_switch_port (e : write_event) (q byte : Nat) (p : ports)
    (h : e ∈ shared_switch q byte p) :
    e.port = port_id.control ∨ e.port = port_id.winkey ∨ e.port = port_id.keyboard := by
  unfold shared_switch at h
  split at h
  · simp at h
  · split_ifs at h
    · rw [mem_write_port] at h
      rw [h.2]
      simp
    · simp at h
  · rw [mem_write_port] at h
    rw [h.2]
    simp
  · rw [mem_write_port] at h
    rw [h.2]
    simp
  · simp at h

/-- C9, what the code does instead. On the frame 0x24 0x41 0x80 0x80 (R1
valid, R1 MSB-carry set, R1 data byte 0x41 with bit 7 clear) `decode_frame`
writes 0x41 to radio 1, not the byte 0xC1 that combining the low 7 bits with
the carry bit gives. -/
theorem C9_bit7_clear_counterexample :
    (decode_frame 0 (frame_of 0x24 0x41 0x80 0x80) ⟨3, 4, 5, 6, 7, 8, 9, 10⟩).writes =
      [⟨port_id.radio1, 0x41⟩] ∧
    recover_byte 0x41 (0x24 &&& SYNCHRO_MSB_R1) = 0xC1 ∧
    (decode_frame 0 (frame_of 0x24 0x41 0x80 0x80) ⟨3, 4, 5, 6, 7, 8, 9, 10⟩).writes ≠
      [⟨port_id.radio1, recover_byte 0x41 (0x24 &&& SYNCHRO_MSB_R1)⟩] := by
  decide

/-- C9, amended. For every 4-byte frame, at every prior position: R1 (byte 1,
valid 0x20, MSB 0x04) and R2 (byte 2, valid 0x10, MSB 0x02) are written iff
their valid bit is set (pty open), the shared channel (byte 3, valid 0x08, MSB
0x01) is dispatched iff its valid bit is set or the position is 1, and the
value decoded for a channel is its data byte with bit 7 cleared when the
channel's MSB-carry bit is clear and the data byte unchanged when the carry
bit is set. That value equals `(byte & 0x7F) | (0x80 if the MSB-carry bit is
set else 0)` whenever the data byte has bit 7 set or the carry bit is clear. -/
theorem C9_field_extraction (pos : Nat) (f : frame_t) (p : ports) :
    (decode_frame pos f p).writes =
      (if f 0 &&& SYNCHRO_VALID_R1 ≠ 0 then
          write_port p.radio1 port_id.radio1
            (if f 0 &&& SYNCHRO_MSB_R1 ≠ 0 then f 1 else f 1 &&& 0x7F)
        else []) ++
      (if f 0 &&& SYNCHRO_VALID_R2 ≠ 0 then
          write_port p.radio2 port_id.radio2
            (if f 0 &&& SYNCHRO_MSB_R2 ≠ 0 then f 2 else f 2 &&& 0x7F)
        else []) ++
      (if f 0 &&& SYNCHRO_VALID_SHARED ≠ 0 ∨ decode_sync pos f = 1 then
          shared_switch (decode_sync pos f)
            (if f 0 &&& SYNCHRO_MSB_SHARED ≠ 0 then f 3 else f 3 &&& 0x7F) p
        else []) ∧
    (0 ≤ p.radio1 →
      ((∃ v, ⟨port_id.radio1, v⟩ ∈ (decode_frame pos f p).writes) ↔
        f 0 &&& SYNCHRO_VALID_R1 ≠ 0)) ∧
    (0 ≤ p.radio2 →
      ((∃ v, ⟨port_id.radio2, v⟩ ∈ (decode_frame pos f p).writes) ↔
        f 0 &&& SYNCHRO_VALID_R2 ≠ 0)) ∧
    (∀ byte carry, byte < 256 → (byte &&& 0x80 ≠ 0 ∨ carry = 0) →
      (if carry ≠ 0 then byte else byte &&& 0x7F) = recover_byte byte carry) := by
  have hw := decode_frame_writes pos f p
  rw [decode_r1_writes, decode_r2_writes, decode_shared_writes] at hw
  refine ⟨hw, ?_, ?_, ?_⟩
  · intro hp
    rw [hw]
    constructor
    · rintro ⟨v, hv⟩
      simp only [List.mem_append] at hv
      rcases hv with (hv | hv) | hv
      · by_contra hc
        rw [if_neg (not_not.mpr hc)] at hv
        simp at hv
      · split_ifs at hv
        · rw [mem_write_port] at hv
          simp at hv
        · simp at hv
      · split_ifs at hv
        · have := mem_shared_switch_port _ _ _ _ hv
          simp at this
        · simp at hv
    · intro hv
      refine ⟨decoded_byte (f 1) (f 0 &&& SYNCHRO_MSB_R1), ?_⟩
      rw [if_pos hv]
      simp only [List.mem_append]
      exact Or.inl (Or.inl ((mem_write_port _ _ _ _).mpr ⟨hp, rfl⟩))
  · intro hp
    rw [hw]
    constructor
    · rintro ⟨v, hv⟩
      simp only [List.mem_append] at hv
      rcases hv with (hv | hv) | hv
      · split_ifs at hv
        · rw [mem_write_port] at hv
          simp at hv
        · simp at hv
      · by_contra hc
        rw [if_neg (not_not.mpr hc)] at hv
        simp at hv
      · split_ifs at hv
        · have := mem_shared_switch_port _ _ _ _ hv
          simp at this
        · simp at hv
    · intro hv
      refine ⟨decoded_byte (f 2) (f 0 &&& SYNCHRO_MSB_R2), ?_⟩
      rw [if_pos hv]
      simp only [List.mem_append]
      exact Or.inl (Or.inr ((mem_write_port _ _ _ _).mpr ⟨hp, rfl⟩))
  · intro byte carry hb h
    exact decoded_byte_eq_recover_byte byte carry hb h

/-- C9 (amended) on the frame 0x6C 0xC1 0x42 0xC3 at position 2: R1 is valid
with carry set, R2 is not valid, the shared byte is valid with carry clear. -/
theorem C9_field_extraction_witness :
    ((0 : Int) ≤ (⟨3, 4, 5, 6, 7, 8, 9, 10⟩ : ports).radio1 ∧ 0xC1 < 256 ∧
      (0xC1 &&& 0x80 ≠ 0 ∨ 0x04 = 0)) ∧
    (decode_frame 2 (frame_of 0x6C 0xC1 0x42 0xC3) ⟨3, 4, 5, 6, 7, 8, 9, 10⟩).writes =
      [⟨port_id.radio1, 0xC1⟩, ⟨port_id.winkey, 0x43⟩] ∧
    ((∃ v, ⟨port_id.radio1, v⟩ ∈
        (decode_frame 2 (frame_of 0x6C 0xC1 0x42 0xC3) ⟨3, 4, 5, 6, 7, 8, 9, 10⟩).writes) ↔
      frame_of 0x6C 0xC1 0x42 0xC3 0 &&& SYNCHRO_VALID_R1 ≠ 0) ∧
    (if 0x04 ≠ 0 then 0xC1 else 0xC1 &&& 0x7F) = recover_byte 0xC1 0x04 :=
  ⟨by decide, by decide,
    (C9_field_extraction 2 (frame_of 0x6C 0xC1 0x42 0xC3) ⟨3, 4, 5, 6, 7, 8, 9, 10⟩).2.1
      (by decide),
    (C9_field_extraction 2 (frame_of 0x6C 0xC1 0x42 0xC3) ⟨3, 4, 5, 6, 7, 8, 9, 10⟩).2.2.2
      0xC1 0x04 (by decide) (by decide)⟩

/-! ## Shared-byte round trip -/

/-- C10. Shared-byte round trip, for every byte `v`: (a) after `sequence_init`
and `sequence_set_control seq v valid`, with either value of `valid`,
`decode_frame` on frame 1 at sequence position 1 (Control pty open) writes `v`
to Control when `v ≠ 0` and writes nothing when `v = 0`; (b) after
`sequence_init` and `sequence_set_winkey seq v`, `decode_frame` on frame 2 at
position 2 (Winkey pty open) writes exactly `v` to Winkey; (c) after
`sequence_init` and `sequence_set_fsk seq r v` with `r` in {1,2}, the datum of
frame `2 + r`'s shared slot, recovered as `(byte 3 & 0x7F) | (0x80 if the
shared MSB-carry bit is set)`, is `v`. -/
theorem C10_shared_round_trip (s : sequence_t) (v valid r : Nat) (p : ports)
    (hv : v < 256) (hr : r = 1 ∨ r = 2) (hpc : 0 ≤ p.control) (hpw : 0 ≤ p.winkey) :
    (decode_frame 1 (frame_at (sequence_set_control (sequence_init s) v valid) 1) p).writes =
      (if v ≠ 0 then [⟨port_id.control, v⟩] else []) ∧
    (decode_frame 2 (frame_at (sequence_set_winkey (sequence_init s) v) 2) p).writes =
      [⟨port_id.winkey, v⟩] ∧
    recover_byte (frame_at (sequence_set_fsk (sequence_init s) r v) (2 + r) 3)
        (frame_at (sequence_set_fsk (sequence_init s) r v) (2 + r) 0 &&& SYNCHRO_MSB_SHARED) =
      v := by
  have h3 := byte_or80_mod v hv
  have h4 := Nat.mod_eq_of_lt hv
  refine ⟨?_, ?_, ?_⟩
  · by_cases hz : v = 0
    · subst hz
      by_cases hval : valid = 0 <;>
      simp +decide [decode_frame, frame_at, sequence_set_control, sequence_init_apply,
        store_apply, decode_r1, decode_r2, decode_shared, shared_switch, decode_sync,
        write_port, hval]
    · by_cases hval : valid = 0 <;> by_cases hm : v &&& 0x80 = 0 <;>
      simp +decide [decode_frame, frame_at, sequence_set_control, sequence_init_apply,
        store_apply, decode_r1, decode_r2, decode_shared, shared_switch, decode_sync,
        write_port, hval, hm, hz, h3, h4, hpc, byte_or80_and7F v hv, byte_or80_of_msb v hv]
  · by_cases hm : v &&& 0x80 = 0 <;>
    simp +decide [decode_frame, frame_at, sequence_set_winkey, sequence_init_apply,
      store_apply, decode_r1, decode_r2, decode_shared, shared_switch, decode_sync,
      write_port, hm, h3, h4, hpw, byte_or80_and7F v hv, byte_or80_of_msb v hv]
  · rcases hr with rfl | rfl <;> by_cases hm : v &&& 0x80 = 0 <;>
    simp +decide [recover_byte, frame_at, sequence_set_fsk, sequence_init_apply,
      store_apply, hm, h3, h4, byte_or80_and7F v hv, byte_or80_of_msb v hv,
      recover_byte_of_msb v hv]

/-- C10 at `v = 0xC5`, `valid = 1`, radio 2, all ptys open. -/
theorem C10_shared_round_trip_witness :
    (0xC5 < 256 ∧ (2 = 1 ∨ 2 = 2) ∧ (0 : Int) ≤ (⟨3, 4, 5, 6, 7, 8, 9, 10⟩ : ports).control ∧
      (0 : Int) ≤ (⟨3, 4, 5, 6, 7, 8, 9, 10⟩ : ports).winkey) ∧
    (decode_frame 1 (frame_at (sequence_set_control (sequence_init (fun _ => 0)) 0xC5 1) 1)
        ⟨3, 4, 5, 6, 7, 8, 9, 10⟩).writes =
      (if 0xC5 ≠ 0 then [⟨port_id.control, 0xC5⟩] else []) ∧
    (decode_frame 2 (frame_at (sequence_set_winkey (sequence_init (fun _ => 0)) 0xC5) 2)
        ⟨3, 4, 5, 6, 7, 8, 9, 10⟩).writes = [⟨port_id.winkey, 0xC5⟩] ∧
    recover_byte (frame_at (sequence_set_fsk (sequence_init (fun _ => 0)) 2 0xC5) (2 + 2) 3)
        (frame_at (sequence_set_fsk (sequence_init (fun _ => 0)) 2 0xC5) (2 + 2) 0
          &&& SYNCHRO_MSB_SHARED) = 0xC5 :=
  ⟨by decide,
    C10_shared_round_trip (fun _ => 0) 0xC5 1 2 ⟨3, 4, 5, 6, 7, 8, 9, 10⟩
      (by decide) (by decide) (by decide) (by decide)⟩

/-! ## Flag setters -/

/-- C11, evaluated on the code. After `sequence_init` and one flag setter, the
flags datum recovered from frame 0 is exactly that flag's bit for RTS, PTT and
FSK-EXT of either radio and for CW of radio 1. For CW of radio 2 (FLAGS_R2_CW,
0x80) the setter changes neither the synchro byte (0x08, shared MSB-carry
clear) nor the flags byte (0x80, as after `sequence_init`): the recovered
datum is 0x00, the flag is lost. The frame count is 1 in every case. -/
theorem C11_flag_setters_on_the_wire (s : sequence_t) :
    (flags_datum (sequence_set_rts (sequence_init s) 1) = FLAGS_R1_RTS ∧
      flags_datum (sequence_set_rts (sequence_init s) 2) = FLAGS_R2_RTS ∧
      flags_datum (sequence_set_ptt (sequence_init s) 1) = FLAGS_R1_PTT ∧
      flags_datum (sequence_set_ptt (sequence_init s) 2) = FLAGS_R2_PTT ∧
      flags_datum (sequence_set_fsk_ext (sequence_init s) 1) = FLAGS_R1_FSK_EXT ∧
      flags_datum (sequence_set_fsk_ext (sequence_init s) 2) = FLAGS_R2_FSK_EXT ∧
      flags_datum (sequence_set_cw (sequence_init s) 1) = FLAGS_R1_CW) ∧
    (flags_datum (sequence_set_cw (sequence_init s) 2) = 0 ∧
      flags_datum (sequence_set_cw (sequence_init s) 2) &&& FLAGS_R2_CW = 0 ∧
      frame_at (sequence_set_cw (sequence_init s) 2) 0 0 = 0x08 ∧
      frame_at (sequence_set_cw (sequence_init s) 2) 0 3 = 0x80 ∧
      frame_at (sequence_init s) 0 0 = 0x08 ∧
      frame_at (sequence_init s) 0 3 = 0x80) ∧
    (frames_in_sequence (sequence_set_rts (sequence_init s) 1) = 1 ∧
      frames_in_sequence (sequence_set_rts (sequence_init s) 2) = 1 ∧
      frames_in_sequence (sequence_set_ptt (sequence_init s) 1) = 1 ∧
      frames_in_sequence (sequence_set_ptt (sequence_init s) 2) = 1 ∧
      frames_in_sequence (sequence_set_fsk_ext (sequence_init s) 1) = 1 ∧
      frames_in_sequence (sequence_set_fsk_ext (sequence_init s) 2) = 1 ∧
      frames_in_sequence (sequence_set_cw (sequence_init s) 1) = 1 ∧
      frames_in_sequence (sequence_set_cw (sequence_init s) 2) = 1) := by
  simp +decide [flags_datum, recover_byte, frame_at, sequence_set_rts, sequence_set_ptt,
    sequence_set_fsk_ext, sequence_set_cw, store_apply, sequence_init_apply, frames_in_sequence]

/-! ## Frames past the end of a cycle, and the Control slot -/

/-- The R1 and R2 stages write to the radio ptys only. -/
theorem mem_radio_writes_port (e : write_event) (f : frame_t) (p : ports)
    (h : e ∈ (decode_r1 f p).2 ++ (decode_r2 f p).2) :
    e.port = port_id.radio1 ∨ e.port = port_id.radio2 := by
  rw [decode_r1_writes, decode_r2_writes, List.mem_append] at h
  rcases h with h | h
  · split_ifs at h
    · rw [mem_write_port] at h
      rw [h.2]
      simp
    · simp at h
  · split_ifs at h
    · rw [mem_write_port] at h
      rw [h.2]
      simp
    · simp at h

/-- Byte 3 of the frame after `decode_frame`: masked when the shared channel
was decoded with its MSB bit clear, otherwise as received. -/
theorem decode_frame_frame3 (pos : Nat) (f : frame_t) (p : ports) :
    (decode_frame pos f p).frame 3 =
      if (f 0 &&& SYNCHRO_VALID_SHARED ≠ 0 ∨ decode_sync pos f = 1) ∧
          f 0 &&& SYNCHRO_MSB_SHARED = 0 then f 3 &&& 0x7F
      else f 3 := by
  have e0 : (decode_r2 (decode_r1 f p).1 p).1 0 = f 0 := by
    rw [decode_r2_frame _ p 0 (by decide), decode_r1_frame f p 0 (by decide)]
  have e3 : (decode_r2 (decode_r1 f p).1 p).1 3 = f 3 := by
    rw [decode_r2_frame _ p 3 (by decide), decode_r1_frame f p 3 (by decide)]
  simp only [decode_frame, decode_shared, e0, e3]
  by_cases hv : f 0 &&& SYNCHRO_VALID_SHARED ≠ 0 ∨ decode_sync pos f = 1 <;>
    by_cases hm : f 0 &&& SYNCHRO_MSB_SHARED = 0 <;>
    simp only [hv, hm, store_apply, and7F_mod, e3, if_true, if_false, and_self, and_true,
      and_false, true_and, false_and]

/-- C19, what the code does instead. At position 4 the frame 0x60 0xC1 0x80
0x80 (SYNCHRO_SEQUENCE set, R1 valid) is not discarded: `decode_frame` writes
0x41 to radio 1. -/
theorem C19_radio_written_past_cycle_counterexample :
    frame_of 0x60 0xC1 0x80 0x80 0 &&& 0xC0 ≠ 0 ∧
    (decode_frame 4 (frame_of 0x60 0xC1 0x80 0x80) ⟨3, 4, 5, 6, 7, 8, 9, 10⟩).writes =
      [⟨port_id.radio1, 0x41⟩] ∧
    (decode_frame 4 (frame_of 0x60 0xC1 0x80 0x80) ⟨3, 4, 5, 6, 7, 8, 9, 10⟩).writes ≠ [] := by
  decide

/-- C19, amended. For every frame that `decode_frame` processes at a position
of 4 or more (byte 0 does not meet the resync condition and the stored
position is at least 4), nothing is written to Control, Winkey or Keyboard;
R1 and R2 are decoded as at any position, so a byte is written to a radio
exactly when its valid bit is set, and nothing at all is written when neither
radio is valid; the stored position is incremented by one. -/
theorem C19_anomalous_frame (pos : Nat) (f : frame_t) (p : ports)
    (hpos : 4 ≤ pos) (hsync : f 0 &&& 0xC0 ≠ 0) :
    (decode_frame pos f p).sequencepos = pos + 1 ∧
    (decode_frame pos f p).writes = (decode_r1 f p).2 ++ (decode_r2 f p).2 ∧
    (∀ e ∈ (decode_frame pos f p).writes,
      e.port ≠ port_id.control ∧ e.port ≠ port_id.winkey ∧ e.port ≠ port_id.keyboard) ∧
    (f 0 &&& SYNCHRO_VALID_R1 = 0 → f 0 &&& SYNCHRO_VALID_R2 = 0 →
      (decode_frame pos f p).writes = []) := by
  have hs : decode_sync pos f = pos := by simp only [decode_sync, hsync, if_false]
  have hsw : ∀ b, shared_switch pos b p = [] := by
    intro b
    unfold shared_switch
    split <;> first | rfl | omega
  have hw : (decode_frame pos f p).writes = (decode_r1 f p).2 ++ (decode_r2 f p).2 := by
    rw [decode_frame_writes, hs, decode_shared_writes, hsw, ite_self, List.append_nil]
  refine ⟨by rw [decode_frame_sequencepos, hs], hw, ?_, ?_⟩
  · intro e he
    rw [hw] at he
    rcases mem_radio_writes_port e f p he with h | h <;> rw [h] <;> simp
  · intro h1 h2
    rw [hw, decode_r1_writes, decode_r2_writes]
    simp only [h1, h2, ne_eq, not_true_eq_false, if_false, List.append_nil]

/-- C19 (amended) at position 5 on a frame with neither radio valid: nothing
is written and the position becomes 6. -/
theorem C19_anomalous_frame_witness :
    (4 ≤ 5 ∧ frame_of 0x49 0x80 0x80 0xC1 0 &&& 0xC0 ≠ 0) ∧
    (decode_frame 5 (frame_of 0x49 0x80 0x80 0xC1) ⟨3, 4, 5, 6, 7, 8, 9, 10⟩).sequencepos = 5 + 1 ∧
    (decode_frame 5 (frame_of 0x49 0x80 0x80 0xC1) ⟨3, 4, 5, 6, 7, 8, 9, 10⟩).writes = [] :=
  ⟨by decide,
    (C19_anomalous_frame 5 (frame_of 0x49 0x80 0x80 0xC1) ⟨3, 4, 5, 6, 7, 8, 9, 10⟩
      (by decide) (by decide)).1,
    (C19_anomalous_frame 5 (frame_of 0x49 0x80 0x80 0xC1) ⟨3, 4, 5, 6, 7, 8, 9, 10⟩
      (by decide) (by decide)).2.2.2 (by decide) (by decide)⟩

/-- C20. The Control slot is decoded without the valid bit and zero is
dropped: for every frame processed at sequence position 1, whether or not its
shared-valid bit is set, the decoded shared byte (`frame[3]` after
`decode_frame`) is written to the Control pty iff it is non-zero, and it is
the only byte written there; and for every frame processed at a position other
than 1 (in particular 0, 2 or 3) with the shared-valid bit clear, nothing is
written to Control, Winkey or Keyboard. -/
theorem C20_control_slot (pos : Nat) (f : frame_t) (p : ports) :
    (decode_sync pos f = 1 →
      (decode_frame pos f p).writes =
        (decode_r1 f p).2 ++ (decode_r2 f p).2 ++
          (if (decode_frame pos f p).frame 3 ≠ 0 then
            write_port p.control port_id.control ((decode_frame pos f p).frame 3)
          else []) ∧
      (0 ≤ p.control →
        ((∃ v, ⟨port_id.control, v⟩ ∈ (decode_frame pos f p).writes) ↔
          (decode_frame pos f p).frame 3 ≠ 0))) ∧
    (decode_sync pos f ≠ 1 → f 0 &&& SYNCHRO_VALID_SHARED = 0 →
      ∀ e ∈ (decode_frame pos f p).writes,
        e.port ≠ port_id.control ∧ e.port ≠ port_id.winkey ∧ e.port ≠ port_id.keyboard) := by
  constructor
  · intro hs
    have h3 : (decode_frame pos f p).frame 3 = decoded_byte (f 3) (f 0 &&& SYNCHRO_MSB_SHARED) := by
      rw [decode_frame_frame3, hs]
      unfold decoded_byte
      by_cases hm : f 0 &&& SYNCHRO_MSB_SHARED = 0
      · simp only [hm, or_true, and_self, if_true, ne_eq, not_true_eq_false, if_false]
      · simp only [hm, and_false, if_false, ne_eq, not_false_eq_true, if_true]
    have hw : (decode_frame pos f p).writes =
        (decode_r1 f p).2 ++ (decode_r2 f p).2 ++
          (if (decode_frame pos f p).frame 3 ≠ 0 then
            write_port p.control port_id.control ((decode_frame pos f p).frame 3)
          else []) := by
      rw [decode_frame_writes, hs, decode_shared_writes, h3]
      simp only [or_true, if_true, shared_switch]
    refine ⟨hw, ?_⟩
    intro hp
    constructor
    · rintro ⟨v, hv⟩
      rw [hw, List.mem_append] at hv
      rcases hv with hv | hv
      · have := mem_radio_writes_port _ f p hv
        simp at this
      · by_contra hc
        rw [if_neg (not_not.mpr hc)] at hv
        simp at hv
    · intro hne
      refine ⟨(decode_frame pos f p).frame 3, ?_⟩
      rw [hw, if_pos hne, List.mem_append]
      exact Or.inr ((mem_write_port _ _ _ _).mpr ⟨hp, rfl⟩)
  · intro hs hv e he
    rw [decode_frame_writes, decode_shared_writes] at he
    have hc : ¬ (f 0 &&& SYNCHRO_VALID_SHARED ≠ 0 ∨ decode_sync pos f = 1) := by
      rintro (h | h)
      · exact h hv
      · exact hs h
    rw [if_neg hc, List.append_nil] at he
    rcases mem_radio_writes_port e f p he with h | h <;> rw [h] <;> simp

/-- C20 at position 1: a frame with shared-valid clear carrying 0x05 writes
0x05 to Control; at position 2 the same frame writes nothing to Control,
Winkey or Keyboard. -/
theorem C20_control_slot_witness :
    (decode_sync 1 (frame_of 0x40 0x80 0x80 0x85) = 1 ∧
      (0 : Int) ≤ (⟨3, 4, 5, 6, 7, 8, 9, 10⟩ : ports).control ∧
      decode_sync 2 (frame_of 0x40 0x80 0x80 0x85) ≠ 1 ∧
      frame_of 0x40 0x80 0x80 0x85 0 &&& SYNCHRO_VALID_SHARED = 0) ∧
    ((∃ v, ⟨port_id.control, v⟩ ∈
        (decode_frame 1 (frame_of 0x40 0x80 0x80 0x85) ⟨3, 4, 5, 6, 7, 8, 9, 10⟩).writes) ↔
      (decode_frame 1 (frame_of 0x40 0x80 0x80 0x85) ⟨3, 4, 5, 6, 7, 8, 9, 10⟩).frame 3 ≠ 0) ∧
    (∀ e ∈ (decode_frame 2 (frame_of 0x40 0x80 0x80 0x85) ⟨3, 4, 5, 6, 7, 8, 9, 10⟩).writes,
      e.port ≠ port_id.control ∧ e.port ≠ port_id.winkey ∧ e.port ≠ port_id.keyboard) :=
  ⟨by decide,
    ((C20_control_slot 1 (frame_of 0x40 0x80 0x80 0x85) ⟨3, 4, 5, 6, 7, 8, 9, 10⟩).1
      (by decide)).2 (by decide),
    (C20_control_slot 2 (frame_of 0x40 0x80 0x80 0x85) ⟨3, 4, 5, 6, 7, 8, 9, 10⟩).2
      (by decide) (by decide)⟩

/-! ## Bits of stored bytes -/

theorem and_two_pow_eq_zero (x k : Nat) : x &&& 2 ^ k = 0 ↔ x.testBit k = false := by
  rw [Nat.and_two_pow]
  cases x.testBit k <;> simp

theorem testBit_mod256 (x k : Nat) : (x % 256).testBit k = (decide (k < 8) && x.testBit k) :=
  Nat.testBit_mod_two_pow x 8 k

theorem and01 (x : Nat) : x &&& 0x01 = 0 ↔ x.testBit 0 = false := and_two_pow_eq_zero x 0

theorem and02 (x : Nat) : x &&& 0x02 = 0 ↔ x.testBit 1 = false := and_two_pow_eq_zero x 1

theorem and04 (x : Nat) : x &&& 0x04 = 0 ↔ x.testBit 2 = false := and_two_pow_eq_zero x 2

theorem and08 (x : Nat) : x &&& 0x08 = 0 ↔ x.testBit 3 = false := and_two_pow_eq_zero x 3

theorem and10 (x : Nat) : x &&& 0x10 = 0 ↔ x.testBit 4 = false := and_two_pow_eq_zero x 4

theorem and20 (x : Nat) : x &&& 0x20 = 0 ↔ x.testBit 5 = false := and_two_pow_eq_zero x 5

theorem and40 (x : Nat) : x &&& 0x40 = 0 ↔ x.testBit 6 = false := and_two_pow_eq_zero x 6

theorem and80 (x : Nat) : x &&& 0x80 = 0 ↔ x.testBit 7 = false := and_two_pow_eq_zero x 7

/-- Two successive `|=` on a byte are one `|=` with both masks. -/
theorem or_mod256 (x a b : Nat) : ((x ||| a) % 256 ||| b) % 256 = (x ||| (a ||| b)) % 256 := by
  apply Nat.eq_of_testBit_eq
  intro i
  simp only [testBit_mod256, Nat.testBit_or]
  cases decide (i < 8) <;> simp [Bool.or_assoc]

/-! ## What a setter call stores where -/

/-- The closing `if (seq[20] < n) seq[20] = n;` of every setter. -/
theorem raise_apply (s : sequence_t) (n j : Nat) :
    (if s 20 < n then store s 20 n else s) j =
      if j = 20 then (if s 20 < n then n % 256 else s 20) else s j := by
  by_cases h : s 20 < n <;> by_cases hj : j = 20 <;> simp [store_apply, h, hj]

theorem apply_call_data (seq : sequence_t) (c : setter_call) (j : Nat)
    (hok : call_ok c = true) (hf : is_flag_call c = false) :
    apply_call seq c j =
      if j = 20 then (if seq 20 < target_frame c + 1 then target_frame c + 1 else seq 20)
      else if j = 4 * target_frame c then (seq (4 * target_frame c) ||| sync_mask c) % 256
      else if j = data_index c then (0x80 ||| call_data c) % 256
      else seq j := by
  cases c with
  | rts r => simp [is_flag_call] at hf
  | ptt r => simp [is_flag_call] at hf
  | fsk_ext r => simp [is_flag_call] at hf
  | cw r => simp [is_flag_call] at hf
  | radio r f d =>
    simp only [call_ok, Bool.and_eq_true, Bool.or_eq_true, beq_iff_eq, decide_eq_true_eq] at hok
    obtain ⟨hr, hf4⟩ := hok
    simp only [apply_call, sequence_set_radio, target_frame, sync_mask, data_index, call_data]
    rcases hr with rfl | rfl
    · simp only [if_true, raise_apply]
      simp only [store_apply]
      split_ifs <;> first | rfl | omega
    · simp only [if_neg (show ¬ ((2 : Nat) = 1) by decide), if_true, raise_apply]
      simp only [store_apply]
      split_ifs <;> first | rfl | omega
  | control d v =>
    simp only [apply_call, sequence_set_control, target_frame, sync_mask, data_index, call_data]
    by_cases hv : v = 0
    · simp only [hv, ne_eq, not_true_eq_false, if_false, raise_apply, Nat.mul_one]
      simp only [store_apply, Nat.or_zero]
      split_ifs <;> first | rfl | omega
    · simp only [hv, ne_eq, not_false_eq_true, if_true, raise_apply, Nat.mul_one]
      simp only [store_apply]
      split_ifs <;> first | rfl | omega | exact or_mod256 _ _ _
  | winkey d =>
    simp only [apply_call, sequence_set_winkey, target_frame, sync_mask, data_index, call_data,
      raise_apply]
    simp only [store_apply]
    split_ifs <;> first | rfl | omega
  | fsk r d =>
    simp only [call_ok, Bool.or_eq_true, beq_iff_eq] at hok
    simp only [apply_call, sequence_set_fsk, target_frame, sync_mask, data_index, call_data,
      raise_apply]
    simp only [store_apply]
    rcases hok with rfl | rfl <;> split_ifs <;> first | rfl | omega

theorem apply_call_flag (seq : sequence_t) (c : setter_call) (j : Nat)
    (hf : is_flag_call c = true) :
    apply_call seq c j =
      if j = 20 then (if seq 20 < 1 then 1 else seq 20)
      else if j = 3 then
        (if flag_radio c = 1 ∨ flag_radio c = 2 then (seq 3 ||| flag_mask c) % 256 else seq 3)
      else seq j := by
  cases c with
  | rts r =>
    simp only [apply_call, sequence_set_rts, flag_radio, flag_mask]
    by_cases h1 : r = 1
    · subst h1
      simp only [if_true, raise_apply, true_or]
      simp only [store_apply]
      split_ifs <;> first | rfl | omega
    · by_cases h2 : r = 2
      · subst h2
        simp only [if_neg (show ¬ ((2 : Nat) = 1) by decide), if_true, raise_apply, or_true]
        simp only [store_apply]
        split_ifs <;> first | rfl | omega
      · simp only [h1, h2, if_false, raise_apply, or_self]
        split_ifs <;> first | rfl | omega | (subst_vars; rfl)
  | ptt r =>
    simp only [apply_call, sequence_set_ptt, flag_radio, flag_mask]
    by_cases h1 : r = 1
    · subst h1
      simp only [if_true, raise_apply, true_or]
      simp only [store_apply]
      split_ifs <;> first | rfl | omega
    · by_cases h2 : r = 2
      · subst h2
        simp only [if_neg (show ¬ ((2 : Nat) = 1) by decide), if_true, raise_apply, or_true]
        simp only [store_apply]
        split_ifs <;> first | rfl | omega
      · simp only [h1, h2, if_false, raise_apply, or_self]
        split_ifs <;> first | rfl | omega | (subst_vars; rfl)
  | fsk_ext r =>
    simp only [apply_call, sequence_set_fsk_ext, flag_radio, flag_mask]
    by_cases h1 : r = 1
    · subst h1
      simp only [if_true, raise_apply, true_or]
      simp only [store_apply]
      split_ifs <;> first | rfl | omega
    · by_cases h2 : r = 2
      · subst h2
        simp only [if_neg (show ¬ ((2 : Nat) = 1) by decide), if_true, raise_apply, or_true]
        simp only [store_apply]
        split_ifs <;> first | rfl | omega
      · simp only [h1, h2, if_false, raise_apply, or_self]
        split_ifs <;> first | rfl | omega | (subst_vars; rfl)
  | cw r =>
    simp only [apply_call, sequence_set_cw, flag_radio, flag_mask]
    by_cases h1 : r = 1
    · subst h1
      simp only [if_true, raise_apply, true_or]
      simp only [store_apply]
      split_ifs <;> first | rfl | omega
    · by_cases h2 : r = 2
      · subst h2
        simp only [if_neg (show ¬ ((2 : Nat) = 1) by decide), if_true, raise_apply, or_true]
        simp only [store_apply]
        split_ifs <;> first | rfl | omega
      · simp only [h1, h2, if_false, raise_apply, or_self]
        split_ifs <;> first | rfl | omega | (subst_vars; rfl)
  | radio r f d => simp [is_flag_call] at hf
  | control d v => simp [is_flag_call] at hf
  | winkey d => simp [is_flag_call] at hf
  | fsk r d => simp [is_flag_call] at hf

/-! ## Order of the setter calls -/

/-- Two writes of the pattern of a data setter, to different data bytes, can be
swapped. -/
theorem slot_write_comm (seq : sequence_t) (t1 m1 d1 v1 t2 m2 d2 v2 : Nat)
    (ht1 : t1 ≤ 4) (ht2 : t2 ≤ 4) (hd : d1 ≠ d2)
    (h1 : d1 ≠ 20 ∧ d1 ≠ 4 * t1 ∧ d1 ≠ 4 * t2) (h2 : d2 ≠ 20 ∧ d2 ≠ 4 * t1 ∧ d2 ≠ 4 * t2) :
    (fun j =>
      let s1 : sequence_t := fun i =>
        if i = 20 then (if seq 20 < t1 + 1 then t1 + 1 else seq 20)
        else if i = 4 * t1 then (seq (4 * t1) ||| m1) % 256
        else if i = d1 then v1 else seq i
      if j = 20 then (if s1 20 < t2 + 1 then t2 + 1 else s1 20)
      else if j = 4 * t2 then (s1 (4 * t2) ||| m2) % 256
      else if j = d2 then v2 else s1 j) =
    (fun j =>
      let s2 : sequence_t := fun i =>
        if i = 20 then (if seq 20 < t2 + 1 then t2 + 1 else seq 20)
        else if i = 4 * t2 then (seq (4 * t2) ||| m2) % 256
        else if i = d2 then v2 else seq i
      if j = 20 then (if s2 20 < t1 + 1 then t1 + 1 else s2 20)
      else if j = 4 * t1 then (s2 (4 * t1) ||| m1) % 256
      else if j = d1 then v1 else s2 j) := by
  funext j
  obtain ⟨a1, a2, a3⟩ := h1
  obtain ⟨b1, b2, b3⟩ := h2
  by_cases ht : t1 = t2
  · subst ht
    simp only []
    split_ifs <;> first | rfl | omega | (rw [or_mod256, or_mod256, Nat.or_comm m1 m2])
  · have e1 : ¬ (4 * t1 = 4 * t2) := by omega
    have e2 : ¬ (4 * t2 = 4 * t1) := by omega
    simp only []
    split_ifs <;> first | rfl | omega

theorem data_call_facts (c : setter_call) (hok : call_ok c = true) (hf : is_flag_call c = false) :
    target_frame c ≤ 4 ∧ data_index c < 20 ∧ data_index c % 4 ≠ 0 := by
  cases c with
  | rts r => simp [is_flag_call] at hf
  | ptt r => simp [is_flag_call] at hf
  | fsk_ext r => simp [is_flag_call] at hf
  | cw r => simp [is_flag_call] at hf
  | radio r f d =>
    simp only [call_ok, Bool.and_eq_true, Bool.or_eq_true, beq_iff_eq, decide_eq_true_eq] at hok
    simp only [target_frame, data_index]
    omega
  | control d v => simp [target_frame, data_index]
  | winkey d => simp [target_frame, data_index]
  | fsk r d =>
    simp only [call_ok, Bool.or_eq_true, beq_iff_eq] at hok
    simp only [target_frame, data_index]
    omega

theorem apply_call_comm (seq : sequence_t) (c1 c2 : setter_call)
    (ok1 : call_ok c1 = true) (nf1 : is_flag_call c1 = false)
    (ok2 : call_ok c2 = true) (nf2 : is_flag_call c2 = false)
    (hd : data_index c1 ≠ data_index c2) :
    apply_call (apply_call seq c1) c2 = apply_call (apply_call seq c2) c1 := by
  obtain ⟨t1, l1, m1⟩ := data_call_facts c1 ok1 nf1
  obtain ⟨t2, l2, m2⟩ := data_call_facts c2 ok2 nf2
  funext j
  simp only [apply_call_data _ c1 _ ok1 nf1, apply_call_data _ c2 _ ok2 nf2]
  exact congrFun (slot_write_comm seq (target_frame c1) (sync_mask c1) (data_index c1)
    ((0x80 ||| call_data c1) % 256) (target_frame c2) (sync_mask c2) (data_index c2)
    ((0x80 ||| call_data c2) % 256) t1 t2 hd ⟨by omega, by omega, by omega⟩
    ⟨by omega, by omega, by omega⟩) j

theorem channel_call_facts (c : setter_call) (a : port_id) (h : channel_of c = some a) :
    call_ok c = true ∧ is_flag_call c = false ∧ data_index c = channel_index a ∧
      a ∈ input_endpoints := by
  cases c with
  | rts r => simp [channel_of] at h
  | ptt r => simp [channel_of] at h
  | fsk_ext r => simp [channel_of] at h
  | cw r => simp [channel_of] at h
  | radio r f d =>
    simp only [channel_of] at h
    split_ifs at h with hf h1 h2
    · cases h; subst hf; subst h1
      simp [call_ok, is_flag_call, data_index, channel_index, input_endpoints]
    · cases h; subst hf; subst h2
      simp [call_ok, is_flag_call, data_index, channel_index, input_endpoints]
  | control d v =>
    simp only [channel_of] at h; cases h
    simp [call_ok, is_flag_call, data_index, channel_index, input_endpoints]
  | winkey d =>
    simp only [channel_of] at h; cases h
    simp [call_ok, is_flag_call, data_index, channel_index, input_endpoints]
  | fsk r d =>
    simp only [channel_of] at h
    split_ifs at h with h1 h2
    · cases h; subst h1
      simp [call_ok, is_flag_call, data_index, channel_index, input_endpoints]
    · cases h; subst h2
      simp [call_ok, is_flag_call, data_index, channel_index, input_endpoints]

theorem channel_index_injective (a b : port_id) (ha : a ∈ input_endpoints)
    (hb : b ∈ input_endpoints) (hab : a ≠ b) : channel_index a ≠ channel_index b := by
  cases a <;> cases b <;> simp_all [channel_index, input_endpoints]

theorem apply_call_comm_channels (seq : sequence_t) (c1 c2 : setter_call) (a b : port_id)
    (h1 : channel_of c1 = some a) (h2 : channel_of c2 = some b) (hab : a ≠ b) :
    apply_call (apply_call seq c1) c2 = apply_call (apply_call seq c2) c1 := by
  obtain ⟨ok1, nf1, d1, ha⟩ := channel_call_facts c1 a h1
  obtain ⟨ok2, nf2, d2, hb⟩ := channel_call_facts c2 b h2
  apply apply_call_comm seq c1 c2 ok1 nf1 ok2 nf2
  rw [d1, d2]
  exact channel_index_injective a b ha hb hab

theorem apply_calls_perm (seq : sequence_t) (l1 l2 : List setter_call)
    (hch : ∀ c ∈ l1, (channel_of c).isSome = true) (hnd : (l1.map channel_of).Nodup)
    (hperm : l1.Perm l2) : apply_calls seq l1 = apply_calls seq l2 := by
  unfold apply_calls
  apply List.Perm.foldl_eq' hperm
  intro x hx y hy z
  by_cases hxy : x = y
  · rw [hxy]
  · have hne : channel_of x ≠ channel_of y := fun h =>
      hxy (List.inj_on_of_nodup_map hnd hx hy h)
    obtain ⟨a, ha⟩ := Option.isSome_iff_exists.mp (hch x hx)
    obtain ⟨b, hb⟩ := Option.isSome_iff_exists.mp (hch y hy)
    apply apply_call_comm_channels z x y a b ha hb
    intro hab
    apply hne
    rw [ha, hb, hab]

/-! ## Invariants of built sequences -/

theorem apply_calls_induction (P : sequence_t → Prop) (seq : sequence_t)
    (calls : List setter_call) (h0 : P seq)
    (step : ∀ s c, call_ok c = true → P s → P (apply_call s c))
    (hok : ∀ c ∈ calls, call_ok c = true) : P (apply_calls seq calls) := by
  induction calls generalizing seq with
  | nil => exact h0
  | cons c cs ih =>
    have hc : call_ok c = true := hok c (List.mem_cons_self c cs)
    have hcs : ∀ d ∈ cs, call_ok d = true := fun d hd => hok d (List.mem_cons_of_mem c hd)
    exact ih (apply_call seq c) (step seq c hc h0) hcs

theorem sync_mask_lt (c : setter_call) : sync_mask c < 64 := by
  cases c <;> simp only [sync_mask] <;> first | decide | (split_ifs <;> decide)

/-- The bit `k` (below 8) of a byte after `|=`. -/
theorem testBit_or_mod256 (x m k : Nat) (hk : k < 8) :
    ((x ||| m) % 256).testBit k = (x.testBit k || m.testBit k) := by
  simp [testBit_mod256, hk]

theorem apply_call_index0 (seq : sequence_t) (c : setter_call) (hok : call_ok c = true) :
    apply_call seq c 0 = seq 0 ∨ apply_call seq c 0 = (seq 0 ||| sync_mask c) % 256 := by
  by_cases hf : is_flag_call c = true
  · left
    rw [apply_call_flag seq c 0 hf]
    simp
  · have hf2 : is_flag_call c = false := by simpa using hf
    obtain ⟨t, l, m⟩ := data_call_facts c hok hf2
    rw [apply_call_data seq c 0 hok hf2]
    by_cases h0 : target_frame c = 0
    · right
      simp [h0]
    · left
      have : ¬ (0 = 4 * target_frame c) := by omega
      have : ¬ (0 = data_index c) := by omega
      simp [*]

/-- The shared-valid bit of `seq[0]` survives every permitted call. -/
theorem frame0_valid_of_calls (s : sequence_t) (calls : List setter_call)
    (hok : ∀ c ∈ calls, call_ok c = true) :
    (apply_calls (sequence_init s) calls) 0 &&& SYNCHRO_VALID_SHARED ≠ 0 := by
  apply apply_calls_induction (fun q => q 0 &&& SYNCHRO_VALID_SHARED ≠ 0) _ _ _ _ hok
  · simp +decide [sequence_init_apply]
  · intro q c hc hq
    simp only [SYNCHRO_VALID_SHARED, ne_eq, and08, Bool.not_eq_false] at hq ⊢
    rcases apply_call_index0 q c hc with h | h
    · rw [h]; exact hq
    · rw [h, testBit_or_mod256 _ _ _ (by decide), hq]
      rfl


/-- C15. Frame 0 shared-valid invariant: for every sequence obtained from
`sequence_init` by any finite list of permitted setter calls (radio in {1,2},
frame in 0..4), bit 0x08 (shared-valid) of frame 0's synchronization byte
`seq[0]` is set. -/
theorem C15_frame0_shared_valid (s : sequence_t) (calls : List setter_call)
    (hok : ∀ c ∈ calls, call_ok c = true) :
    (apply_calls (sequence_init s) calls) 0 &&& SYNCHRO_VALID_SHARED ≠ 0 :=
  frame0_valid_of_calls s calls hok

/-- C15 on a list that writes both radio bytes into frame 0. -/
theorem C15_frame0_shared_valid_witness :
    (∀ c ∈ [setter_call.radio 1 0 0xC1, setter_call.radio 2 0 0x42, setter_call.cw 2],
        call_ok c = true) ∧
    (apply_calls (sequence_init (fun _ => 0))
        [setter_call.radio 1 0 0xC1, setter_call.radio 2 0 0x42, setter_call.cw 2]) 0
      &&& SYNCHRO_VALID_SHARED ≠ 0 :=
  ⟨by decide,
    C15_frame0_shared_valid (fun _ => 0)
      [setter_call.radio 1 0 0xC1, setter_call.radio 2 0 0x42, setter_call.cw 2] (by decide)⟩

theorem sync_mask_bit7 (c : setter_call) : (sync_mask c).testBit 7 = false :=
  Nat.testBit_lt_two_pow (lt_trans (sync_mask_lt c) (by decide))

theorem sync_mask_bit6 (c : setter_call) : (sync_mask c).testBit 6 = false :=
  Nat.testBit_lt_two_pow (sync_mask_lt c)

theorem framing_ok_init (s : sequence_t) : framing_ok (sequence_init s) := by
  intro j hj
  interval_cases j <;> simp +decide [sequence_init_apply]

theorem framing_ok_apply_call (q : sequence_t) (c : setter_call) (hok : call_ok c = true)
    (hq : framing_ok q) : framing_ok (apply_call q c) := by
  intro j hj
  have hj20 : j ≠ 20 := by omega
  by_cases hf : is_flag_call c = true
  · rw [apply_call_flag q c j hf, if_neg hj20]
    by_cases h3 : j = 3
    · subst h3
      have := hq 3 (by decide)
      simp only [if_true]
      split_ifs
      · rw [testBit_or_mod256 _ _ _ (by decide), this]
        rfl
      · exact this
    · rw [if_neg h3]
      exact hq j hj
  · have hf2 : is_flag_call c = false := by simpa using hf
    obtain ⟨t, l, m⟩ := data_call_facts c hok hf2
    rw [apply_call_data q c j hok hf2, if_neg hj20]
    by_cases h1 : j = 4 * target_frame c
    · rw [if_pos h1, testBit_or_mod256 _ _ _ (by decide), sync_mask_bit7, ← h1, hq j hj]
      have : j % 4 = 0 := by omega
      simp [this]
    · rw [if_neg h1]
      by_cases h2 : j = data_index c
      · rw [if_pos h2, testBit_or_mod256 _ _ _ (by decide)]
        have : j % 4 ≠ 0 := by rw [h2]; exact m
        simp +decide [this]
      · rw [if_neg h2]
        exact hq j hj

/-- C16. Framing-marker invariant: for every sequence obtained from
`sequence_init` by any finite list of permitted setter calls (radio in {1,2},
frame in 0..4) and every frame index `k` in 0..4, byte 0 of frame `k`
(`seq[4k]`) has bit 7 clear and bytes 1, 2 and 3 of frame `k` each have bit 7
set. -/
theorem C16_framing_marker (s : sequence_t) (calls : List setter_call)
    (hok : ∀ c ∈ calls, call_ok c = true) (k : Nat) (hk : k ≤ 4) :
    (apply_calls (sequence_init s) calls) (4 * k) &&& 0x80 = 0 ∧
    (apply_calls (sequence_init s) calls) (4 * k + 1) &&& 0x80 ≠ 0 ∧
    (apply_calls (sequence_init s) calls) (4 * k + 2) &&& 0x80 ≠ 0 ∧
    (apply_calls (sequence_init s) calls) (4 * k + 3) &&& 0x80 ≠ 0 := by
  have h : framing_ok (apply_calls (sequence_init s) calls) :=
    apply_calls_induction framing_ok _ _ (framing_ok_init s) framing_ok_apply_call hok
  have h0 := h (4 * k) (by omega)
  have h1 := h (4 * k + 1) (by omega)
  have h2 := h (4 * k + 2) (by omega)
  have h3 := h (4 * k + 3) (by omega)
  have e0 : (4 * k) % 4 = 0 := by omega
  have e1 : (4 * k + 1) % 4 = 1 := by omega
  have e2 : (4 * k + 2) % 4 = 2 := by omega
  have e3 : (4 * k + 3) % 4 = 3 := by omega
  simp only [ne_eq, and80, Bool.not_eq_false]
  rw [h0, h1, h2, h3, e0, e1, e2, e3]
  decide

/-- C16 on frame 3 after an FSK byte for radio 1, a radio 2 byte in frame 3
and the CW flag of radio 2. -/
theorem C16_framing_marker_witness :
    ((∀ c ∈ [setter_call.fsk 1 0x7F, setter_call.radio 2 3 0x00, setter_call.cw 2],
        call_ok c = true) ∧ 3 ≤ 4) ∧
    (apply_calls (sequence_init (fun _ => 0))
        [setter_call.fsk 1 0x7F, setter_call.radio 2 3 0x00, setter_call.cw 2]) (4 * 3)
      &&& 0x80 = 0 ∧
    (apply_calls (sequence_init (fun _ => 0))
        [setter_call.fsk 1 0x7F, setter_call.radio 2 3 0x00, setter_call.cw 2]) (4 * 3 + 1)
      &&& 0x80 ≠ 0 ∧
    (apply_calls (sequence_init (fun _ => 0))
        [setter_call.fsk 1 0x7F, setter_call.radio 2 3 0x00, setter_call.cw 2]) (4 * 3 + 2)
      &&& 0x80 ≠ 0 ∧
    (apply_calls (sequence_init (fun _ => 0))
        [setter_call.fsk 1 0x7F, setter_call.radio 2 3 0x00, setter_call.cw 2]) (4 * 3 + 3)
      &&& 0x80 ≠ 0 :=
  ⟨by decide,
    C16_framing_marker (fun _ => 0)
      [setter_call.fsk 1 0x7F, setter_call.radio 2 3 0x00, setter_call.cw 2] (by decide) 3
      (by decide)⟩

/-! ## The shared MSB-carry bit -/

/-- The shared MSB-carry bit after a shared-channel setter, on any sequence
state: it is set iff it was set before or the data byte has bit 7 set. -/
theorem shared_msb_after_setter (seq : sequence_t) (v valid r : Nat) (hr : r = 1 ∨ r = 2) :
    ((sequence_set_control seq v valid) 4 &&& SYNCHRO_MSB_SHARED ≠ 0 ↔
      (seq 4 &&& SYNCHRO_MSB_SHARED ≠ 0 ∨ v &&& 0x80 ≠ 0)) ∧
    ((sequence_set_winkey seq v) 8 &&& SYNCHRO_MSB_SHARED ≠ 0 ↔
      (seq 8 &&& SYNCHRO_MSB_SHARED ≠ 0 ∨ v &&& 0x80 ≠ 0)) ∧
    ((sequence_set_fsk seq r v) (4 * (2 + r)) &&& SYNCHRO_MSB_SHARED ≠ 0 ↔
      (seq (4 * (2 + r)) &&& SYNCHRO_MSB_SHARED ≠ 0 ∨ v &&& 0x80 ≠ 0)) := by
  have hc := apply_call_data seq (setter_call.control v valid) 4 rfl rfl
  have hw := apply_call_data seq (setter_call.winkey v) 8 rfl rfl
  have hf := apply_call_data seq (setter_call.fsk r v) (4 * (2 + r))
    (by rcases hr with rfl | rfl <;> rfl) rfl
  simp only [apply_call, target_frame, sync_mask, data_index, call_data] at hc hw hf
  have e : ¬ (4 * (2 + r) = 20) := by omega
  simp only [if_true, if_neg e, Nat.reduceEqDiff, if_false] at hc hw hf
  rw [hc, hw, hf]
  simp only [SYNCHRO_MSB_SHARED, SYNCHRO_VALID_SHARED, ne_eq, and01, Bool.not_eq_false,
    testBit_or_mod256 _ _ _ (show 0 < 8 by decide), Nat.testBit_or]
  by_cases hm : v &&& 0x80 = 0 <;> by_cases hv : valid = 0 <;> simp +decide [hm, hv]

/-- C17, what the code does instead. After `sequence_init`, the value 0x05
(bit 7 clear) leaves the shared MSB-carry bit (0x01) of the frame's
synchronization byte clear, for `sequence_set_control` with either `valid`,
for `sequence_set_winkey` and for `sequence_set_fsk`. -/
theorem C17_low_value_counterexample :
    (sequence_set_control (sequence_init (fun _ => 0)) 0x05 1) 4 &&& SYNCHRO_MSB_SHARED = 0 ∧
    (sequence_set_control (sequence_init (fun _ => 0)) 0x05 0) 4 &&& SYNCHRO_MSB_SHARED = 0 ∧
    (sequence_set_winkey (sequence_init (fun _ => 0)) 0x05) 8 &&& SYNCHRO_MSB_SHARED = 0 ∧
    (sequence_set_fsk (sequence_init (fun _ => 0)) 1 0x05) 12 &&& SYNCHRO_MSB_SHARED = 0 ∧
    (sequence_set_fsk (sequence_init (fun _ => 0)) 2 0x05) 16 &&& SYNCHRO_MSB_SHARED = 0 := by
  decide

/-- C17, amended. The shared-channel setters carry bit 7 of the value into the
MSB-carry bit: for every value `v` and either value of `valid`, after
`sequence_init` and `sequence_set_control seq v valid` the shared MSB-carry
bit (0x01) of frame 1's synchronization byte is set iff `v` has bit 7 set
(`v >= 0x80`); likewise after `sequence_set_winkey seq v` for frame 2 and
`sequence_set_fsk seq r v` for frame `2 + r`. On any sequence state the bit is
set after the call iff it was set before or `v` has bit 7 set. -/
theorem C17_msb_carry (s seq : sequence_t) (v valid r : Nat) (hr : r = 1 ∨ r = 2) :
    (((sequence_set_control (sequence_init s) v valid) 4 &&& SYNCHRO_MSB_SHARED ≠ 0 ↔
        v &&& 0x80 ≠ 0) ∧
      ((sequence_set_winkey (sequence_init s) v) 8 &&& SYNCHRO_MSB_SHARED ≠ 0 ↔
        v &&& 0x80 ≠ 0) ∧
      ((sequence_set_fsk (sequence_init s) r v) (4 * (2 + r)) &&& SYNCHRO_MSB_SHARED ≠ 0 ↔
        v &&& 0x80 ≠ 0)) ∧
    (((sequence_set_control seq v valid) 4 &&& SYNCHRO_MSB_SHARED ≠ 0 ↔
        (seq 4 &&& SYNCHRO_MSB_SHARED ≠ 0 ∨ v &&& 0x80 ≠ 0)) ∧
      ((sequence_set_winkey seq v) 8 &&& SYNCHRO_MSB_SHARED ≠ 0 ↔
        (seq 8 &&& SYNCHRO_MSB_SHARED ≠ 0 ∨ v &&& 0x80 ≠ 0)) ∧
      ((sequence_set_fsk seq r v) (4 * (2 + r)) &&& SYNCHRO_MSB_SHARED ≠ 0 ↔
        (seq (4 * (2 + r)) &&& SYNCHRO_MSB_SHARED ≠ 0 ∨ v &&& 0x80 ≠ 0))) := by
  refine ⟨?_, shared_msb_after_setter seq v valid r hr⟩
  obtain ⟨h1, h2, h3⟩ := shared_msb_after_setter (sequence_init s) v valid r hr
  have e4 : sequence_init s 4 &&& SYNCHRO_MSB_SHARED = 0 := by
    simp +decide [sequence_init_apply]
  have e8 : sequence_init s 8 &&& SYNCHRO_MSB_SHARED = 0 := by
    simp +decide [sequence_init_apply]
  have er : sequence_init s (4 * (2 + r)) &&& SYNCHRO_MSB_SHARED = 0 := by
    rcases hr with rfl | rfl <;> simp +decide [sequence_init_apply]
  rw [h1, h2, h3, e4, e8, er]
  simp

/-- C17 (amended) at `v = 0x85`, `valid = 0`, radio 2: the carry bit is set. -/
theorem C17_msb_carry_witness :
    (2 = 1 ∨ 2 = 2) ∧
    ((sequence_set_control (sequence_init (fun _ => 0)) 0x85 0) 4 &&& SYNCHRO_MSB_SHARED ≠ 0 ↔
      0x85 &&& 0x80 ≠ 0) ∧
    ((sequence_set_fsk (sequence_init (fun _ => 0)) 2 0x85) (4 * (2 + 2))
        &&& SYNCHRO_MSB_SHARED ≠ 0 ↔ 0x85 &&& 0x80 ≠ 0) :=
  ⟨by decide,
    (C17_msb_carry (fun _ => 0) (fun _ => 0) 0x85 0 2 (by decide)).1.1,
    (C17_msb_carry (fun _ => 0) (fun _ => 0) 0x85 0 2 (by decide)).1.2.2⟩


/-! ## One cycle of the main loop -/

theorem control_framer_data (ceb d : Nat) : (control_framer ceb d).1.data = d := by
  unfold control_framer
  split_ifs <;> rfl

theorem apply_calls_append (seq : sequence_t) (l1 l2 : List setter_call) :
    apply_calls seq (l1 ++ l2) = apply_calls (apply_calls seq l1) l2 := by
  simp [apply_calls, List.foldl_append]

theorem on_read_eq (r : Option Nat) (seq : sequence_t) (call : Nat → setter_call) :
    on_read r seq (fun s data => apply_call s (call data)) = apply_calls seq (read_call r call) := by
  cases r <;> rfl

theorem sent_fst (x : sequence_t) :
    (if frames_in_sequence x ≠ 0 then
        (sequence_set_rts (sequence_set_rts x 1) 2,
          [send_sequence (sequence_set_rts (sequence_set_rts x 1) 2)])
      else (x, ([] : List (List Nat)))).1 =
      if frames_in_sequence x ≠ 0 then flagged x else x := by
  split_ifs <;> rfl

theorem sent_snd (x : sequence_t) :
    (if frames_in_sequence x ≠ 0 then
        (sequence_set_rts (sequence_set_rts x 1) 2,
          [send_sequence (sequence_set_rts (sequence_set_rts x 1) 2)])
      else (x, ([] : List (List Nat)))).2 =
      if frames_in_sequence x ≠ 0 then [send_sequence (flagged x)] else [] := by
  split_ifs <;> rfl

theorem control_read_eq (ceb : Nat) (r : Option Nat) (seq : sequence_t) :
    (match r with
      | some data => control_input ceb seq data
      | none => (seq, ceb)).1 =
    apply_calls seq (read_call r
      (fun data => setter_call.control data (control_framer ceb data).1.valid)) := by
  cases r with
  | none => rfl
  | some d =>
    simp only [control_input, read_call, apply_calls, List.foldl, apply_call, control_framer_data]

/-- The sequence the six reads of a cycle build. -/
theorem main_cycle_built (st : loop_state) (env : cycle_env) :
    on_read env.winkey
      (on_read env.fsk2
        (on_read env.fsk1
          (on_read env.radio2
            (on_read env.radio1
              (match env.control with
                | some data => control_input st.controlendbyte (sequence_init env.sequence) data
                | none => (sequence_init env.sequence, st.controlendbyte)).1
              (fun seq data => sequence_set_radio seq 1 0 data))
            (fun seq data => sequence_set_radio seq 2 0 data))
          (fun seq data => sequence_set_fsk seq 1 data))
        (fun seq data => sequence_set_fsk seq 2 data))
      (fun seq data => sequence_set_winkey seq data) =
    built_sequence st.controlendbyte env := by
  rw [control_read_eq]
  unfold built_sequence cycle_calls
  rw [apply_calls_append, apply_calls_append, apply_calls_append, apply_calls_append,
    apply_calls_append]
  rw [← on_read_eq env.winkey, ← on_read_eq env.fsk2, ← on_read_eq env.fsk1,
    ← on_read_eq env.radio2, ← on_read_eq env.radio1]
  rfl

theorem main_cycle_sequence (allfds : fd_set) (p : ports) (st : loop_state) (env : cycle_env) :
    (main_cycle allfds p st env).sequence =
      (if frames_in_sequence (built_sequence st.controlendbyte env) ≠ 0 then
        flagged (built_sequence st.controlendbyte env)
      else built_sequence st.controlendbyte env) ∧
    (main_cycle allfds p st env).keyer_writes =
      (if frames_in_sequence (built_sequence st.controlendbyte env) ≠ 0 then
        [send_sequence (flagged (built_sequence st.controlendbyte env))]
      else []) := by
  rw [← main_cycle_built st env]
  exact ⟨sent_fst _, sent_snd _⟩

theorem cycle_calls_targets (ceb : Nat) (env : cycle_env) :
    (cycle_calls ceb env).map target_frame =
      (input_endpoints.filter (fun e => (env_read env e).isSome)).map endpoint_slot := by
  obtain ⟨ready, keyer, control, radio1, radio2, fsk1, fsk2, winkey, sequence⟩ := env
  cases control <;> cases radio1 <;> cases radio2 <;> cases fsk1 <;> cases fsk2 <;>
    cases winkey <;> rfl

theorem cycle_calls_channels (ceb : Nat) (env : cycle_env) :
    (cycle_calls ceb env).map channel_of =
      (input_endpoints.filter (fun e => (env_read env e).isSome)).map some := by
  obtain ⟨ready, keyer, control, radio1, radio2, fsk1, fsk2, winkey, sequence⟩ := env
  cases control <;> cases radio1 <;> cases radio2 <;> cases fsk1 <;> cases fsk2 <;>
    cases winkey <;> rfl

theorem cycle_calls_eq_nil (ceb : Nat) (env : cycle_env) :
    cycle_calls ceb env = [] ↔ yields env = false := by
  obtain ⟨ready, keyer, control, radio1, radio2, fsk1, fsk2, winkey, sequence⟩ := env
  cases control <;> cases radio1 <;> cases radio2 <;> cases fsk1 <;> cases fsk2 <;>
    cases winkey <;> simp [cycle_calls, read_call, yields]

theorem FD_SET_apply (fd x : Int) (set : fd_set) :
    FD_SET fd set x = if x = fd then true else set x := rfl

theorem FD_CLR_apply (fd x : Int) (set : fd_set) :
    FD_CLR fd set x = if x = fd then false else set x := rfl

theorem eof_update_self (fd : Int) (r : Option Nat) (fds eoffds : fd_set) :
    FD_ISSET fd (eof_update fd r fds eoffds) =
      (match r with
        | some _ => false
        | none => (FD_ISSET fd fds || FD_ISSET fd eoffds)) := by
  cases r with
  | some b => simp [eof_update, FD_CLR, FD_ISSET]
  | none =>
    simp only [eof_update, FD_ISSET]
    cases h : fds fd <;> simp [FD_SET_apply]

theorem eof_update_other (fd x : Int) (r : Option Nat) (fds eoffds : fd_set) (h : x ≠ fd) :
    FD_ISSET x (eof_update fd r fds eoffds) = FD_ISSET x eoffds := by
  cases r with
  | some b => simp [eof_update, FD_CLR, FD_ISSET, h]
  | none =>
    simp only [eof_update, FD_ISSET]
    cases h2 : fds fd <;> simp [h, FD_SET_apply]

theorem wait_step (q x : Int) (eoffds fds : fd_set) :
    FD_ISSET x (if FD_ISSET q eoffds then FD_CLR q fds else fds) =
      (FD_ISSET x fds && !(decide (x = q) && FD_ISSET x eoffds)) := by
  simp only [FD_ISSET]
  by_cases hx : x = q
  · subst hx
    cases h : eoffds x <;> simp [FD_CLR_apply]
  · cases h : eoffds q <;> simp [hx, FD_CLR_apply]

theorem wait_fds_port (allfds eoffds : fd_set) (p : ports) (e : port_id) :
    FD_ISSET (port_fd p e) (wait_fds allfds eoffds p) =
      (FD_ISSET (port_fd p e) allfds && !FD_ISSET (port_fd p e) eoffds) := by
  simp only [wait_fds, wait_step]
  cases e <;> simp only [port_fd] <;>
    cases FD_ISSET _ allfds <;> cases FD_ISSET _ eoffds <;> simp

theorem main_cycle_eoffds (allfds : fd_set) (p : ports) (st : loop_state) (env : cycle_env) :
    (main_cycle allfds p st env).state.eoffds =
      eof_update p.winkey env.winkey (select (wait_fds allfds st.eoffds p) env.ready)
        (eof_update p.fsk2 env.fsk2 (select (wait_fds allfds st.eoffds p) env.ready)
          (eof_update p.fsk1 env.fsk1 (select (wait_fds allfds st.eoffds p) env.ready)
            (eof_update p.radio2 env.radio2 (select (wait_fds allfds st.eoffds p) env.ready)
              (eof_update p.radio1 env.radio1 (select (wait_fds allfds st.eoffds p) env.ready)
                (eof_update p.control env.control
                  (select (wait_fds allfds st.eoffds p) env.ready) st.eoffds))))) := rfl

/-- The dead flag of an input endpoint after one cycle. -/
theorem main_cycle_eoffds_port (allfds : fd_set) (p : ports) (st : loop_state) (env : cycle_env)
    (e : port_id) (he : e ∈ input_endpoints)
    (hd : ∀ q ∈ input_endpoints, q ≠ e → port_fd p q ≠ port_fd p e) :
    FD_ISSET (port_fd p e) (main_cycle allfds p st env).state.eoffds =
      (match env_read env e with
        | some _ => false
        | none =>
          (FD_ISSET (port_fd p e) (select (wait_fds allfds st.eoffds p) env.ready) ||
            FD_ISSET (port_fd p e) st.eoffds)) := by
  have hc := hd port_id.control (by decide)
  have h1 := hd port_id.radio1 (by decide)
  have h2 := hd port_id.radio2 (by decide)
  have h3 := hd port_id.fsk1 (by decide)
  have h4 := hd port_id.fsk2 (by decide)
  have hw := hd port_id.winkey (by decide)
  rw [main_cycle_eoffds]
  cases e with
  | keyer => simp [input_endpoints] at he
  | keyboard => simp [input_endpoints] at he
  | control =>
    have a1 := (h1 (by decide)).symm
    have a2 := (h2 (by decide)).symm
    have a3 := (h3 (by decide)).symm
    have a4 := (h4 (by decide)).symm
    have a5 := (hw (by decide)).symm
    simp only [port_fd, env_read] at *
    rw [eof_update_other _ _ _ _ _ a5, eof_update_other _ _ _ _ _ a4,
      eof_update_other _ _ _ _ _ a3, eof_update_other _ _ _ _ _ a2,
      eof_update_other _ _ _ _ _ a1, eof_update_self]
  | radio1 =>
    have a0 := (hc (by decide)).symm
    have a2 := (h2 (by decide)).symm
    have a3 := (h3 (by decide)).symm
    have a4 := (h4 (by decide)).symm
    have a5 := (hw (by decide)).symm
    simp only [port_fd, env_read] at *
    rw [eof_update_other _ _ _ _ _ a5, eof_update_other _ _ _ _ _ a4,
      eof_update_other _ _ _ _ _ a3, eof_update_other _ _ _ _ _ a2, eof_update_self,
      eof_update_other _ _ _ _ _ a0]
  | radio2 =>
    have a0 := (hc (by decide)).symm
    have a1 := (h1 (by decide)).symm
    have a3 := (h3 (by decide)).symm
    have a4 := (h4 (by decide)).symm
    have a5 := (hw (by decide)).symm
    simp only [port_fd, env_read] at *
    rw [eof_update_other _ _ _ _ _ a5, eof_update_other _ _ _ _ _ a4,
      eof_update_other _ _ _ _ _ a3, eof_update_self, eof_update_other _ _ _ _ _ a1,
      eof_update_other _ _ _ _ _ a0]
  | fsk1 =>
    have a0 := (hc (by decide)).symm
    have a1 := (h1 (by decide)).symm
    have a2 := (h2 (by decide)).symm
    have a4 := (h4 (by decide)).symm
    have a5 := (hw (by decide)).symm
    simp only [port_fd, env_read] at *
    rw [eof_update_other _ _ _ _ _ a5, eof_update_other _ _ _ _ _ a4, eof_update_self,
      eof_update_other _ _ _ _ _ a2, eof_update_other _ _ _ _ _ a1,
      eof_update_other _ _ _ _ _ a0]
  | fsk2 =>
    have a0 := (hc (by decide)).symm
    have a1 := (h1 (by decide)).symm
    have a2 := (h2 (by decide)).symm
    have a3 := (h3 (by decide)).symm
    have a5 := (hw (by decide)).symm
    simp only [port_fd, env_read] at *
    rw [eof_update_other _ _ _ _ _ a5, eof_update_self, eof_update_other _ _ _ _ _ a3,
      eof_update_other _ _ _ _ _ a2, eof_update_other _ _ _ _ _ a1,
      eof_update_other _ _ _ _ _ a0]
  | winkey =>
    have a0 := (hc (by decide)).symm
    have a1 := (h1 (by decide)).symm
    have a2 := (h2 (by decide)).symm
    have a3 := (h3 (by decide)).symm
    have a4 := (h4 (by decide)).symm
    simp only [port_fd, env_read] at *
    rw [eof_update_self, eof_update_other _ _ _ _ _ a4, eof_update_other _ _ _ _ _ a3,
      eof_update_other _ _ _ _ _ a2, eof_update_other _ _ _ _ _ a1,
      eof_update_other _ _ _ _ _ a0]

/-- C12. Endpoint liveness step: for each input endpoint `e` (Control, R1, R2,
FSK-1, FSK-2, Winkey) that was opened, with a descriptor of its own, and every
cycle, the outcome of `select` and of the one-byte reads being inputs: if the
read on `e` succeeds, `e` is not in `eoffds` (not dead) afterwards; if the
read fails and `e` was reported ready by `select`, `e` is dead afterwards; if
the read fails and `e` was not reported ready, its dead flag is unchanged.
The wait set built at the start of the next cycle contains `e` iff `e` is not
dead. -/
theorem C12_liveness_step (allfds : fd_set) (p : ports) (st : loop_state) (env : cycle_env)
    (e : port_id) (he : e ∈ input_endpoints)
    (hd : ∀ q ∈ input_endpoints, q ≠ e → port_fd p q ≠ port_fd p e)
    (hall : FD_ISSET (port_fd p e) allfds = true) :
    ((env_read env e).isSome = true →
      FD_ISSET (port_fd p e) (main_cycle allfds p st env).state.eoffds = false) ∧
    (env_read env e = none →
      FD_ISSET (port_fd p e) (select (wait_fds allfds st.eoffds p) env.ready) = true →
      FD_ISSET (port_fd p e) (main_cycle allfds p st env).state.eoffds = true) ∧
    (env_read env e = none →
      FD_ISSET (port_fd p e) (select (wait_fds allfds st.eoffds p) env.ready) = false →
      FD_ISSET (port_fd p e) (main_cycle allfds p st env).state.eoffds =
        FD_ISSET (port_fd p e) st.eoffds) ∧
    (FD_ISSET (port_fd p e) (wait_fds allfds (main_cycle allfds p st env).state.eoffds p) = true ↔
      FD_ISSET (port_fd p e) (main_cycle allfds p st env).state.eoffds = false) := by
  have h := main_cycle_eoffds_port allfds p st env e he hd
  refine ⟨?_, ?_, ?_, ?_⟩
  · intro hs
    obtain ⟨b, hb⟩ := Option.isSome_iff_exists.mp hs
    rw [h, hb]
  · intro hn hr
    rw [h, hn, hr]
    rfl
  · intro hn hr
    rw [h, hn, hr]
    rfl
  · rw [wait_fds_port, hall]
    simp

/-- C12 on the Control pty: ready for `select`, the read fails, so Control is
dead after the cycle and left out of the next wait set; R1 yields a byte. -/
theorem C12_liveness_step_witness :
    (port_id.control ∈ input_endpoints ∧
      (∀ q ∈ input_endpoints, q ≠ port_id.control →
        port_fd ⟨3, 4, 5, 6, 7, 8, 9, 10⟩ q ≠ port_fd ⟨3, 4, 5, 6, 7, 8, 9, 10⟩ port_id.control) ∧
      FD_ISSET (port_fd ⟨3, 4, 5, 6, 7, 8, 9, 10⟩ port_id.control) (fun x => decide (3 ≤ x)) = true ∧
      env_read ⟨fun _ => true, none, none, some 0x41, none, none, none, none, fun _ => 0⟩
        port_id.control = none ∧
      FD_ISSET (port_fd ⟨3, 4, 5, 6, 7, 8, 9, 10⟩ port_id.control)
        (select (wait_fds (fun x => decide (3 ≤ x)) FD_ZERO ⟨3, 4, 5, 6, 7, 8, 9, 10⟩)
          (fun _ => true)) = true) ∧
    FD_ISSET (port_fd ⟨3, 4, 5, 6, 7, 8, 9, 10⟩ port_id.control)
      (main_cycle (fun x => decide (3 ≤ x)) ⟨3, 4, 5, 6, 7, 8, 9, 10⟩
        ⟨0, fun _ => 0, 0, 0, FD_ZERO⟩
        ⟨fun _ => true, none, none, some 0x41, none, none, none, none, fun _ => 0⟩).state.eoffds
      = true :=
  ⟨by decide,
    (C12_liveness_step (fun x => decide (3 ≤ x)) ⟨3, 4, 5, 6, 7, 8, 9, 10⟩
      ⟨0, fun _ => 0, 0, 0, FD_ZERO⟩
      ⟨fun _ => true, none, none, some 0x41, none, none, none, none, fun _ => 0⟩
      port_id.control (by decide) (by decide) (by decide)).2.1 (by decide) (by decide)⟩

/-! ## What one cycle sends -/

theorem cycle_calls_ok (ceb : Nat) (env : cycle_env) :
    ∀ c ∈ cycle_calls ceb env, call_ok c = true := by
  intro c hc
  have h : channel_of c ∈ (cycle_calls ceb env).map channel_of := List.mem_map_of_mem _ hc
  rw [cycle_calls_channels, List.mem_map] at h
  obtain ⟨a, -, ha⟩ := h
  exact (channel_call_facts c a ha.symm).1

theorem cycle_calls_channel (ceb : Nat) (env : cycle_env) :
    (∀ c ∈ cycle_calls ceb env, (channel_of c).isSome = true) ∧
    ((cycle_calls ceb env).map channel_of).Nodup := by
  constructor
  · intro c hc
    have h : channel_of c ∈ (cycle_calls ceb env).map channel_of := List.mem_map_of_mem _ hc
    rw [cycle_calls_channels, List.mem_map] at h
    obtain ⟨a, -, ha⟩ := h
    rw [← ha]
    rfl
  · rw [cycle_calls_channels]
    apply List.Nodup.map (Option.some_injective _)
    apply List.Nodup.filter
    decide

theorem highest_target_cycle_calls (ceb : Nat) (env : cycle_env) :
    highest_target (cycle_calls ceb env) = highest_slot env := by
  unfold highest_target highest_slot
  rw [cycle_calls_targets]

theorem foldr_max_le (l : List Nat) (n : Nat) (h : ∀ x ∈ l, x ≤ n) : l.foldr max 0 ≤ n := by
  induction l with
  | nil => exact Nat.zero_le n
  | cons a t ih =>
    have ha := h a (List.mem_cons_self a t)
    have ht := ih (fun x hx => h x (List.mem_cons_of_mem a hx))
    simp only [List.foldr_cons]
    omega

theorem highest_slot_le (env : cycle_env) : highest_slot env ≤ 4 := by
  unfold highest_slot
  apply foldr_max_le
  intro x hx
  rw [List.mem_map] at hx
  obtain ⟨e, -, rfl⟩ := hx
  cases e <;> decide

/-- The frame count of the sequence the reads of a cycle build. -/
theorem frames_built_sequence (ceb : Nat) (env : cycle_env) :
    frames_in_sequence (built_sequence ceb env) =
      if yields env = true then 1 + highest_slot env else 0 := by
  unfold built_sequence
  rw [frames_apply_calls _ _ (cycle_calls_ok ceb env), frames_sequence_init]
  by_cases hy : yields env = true
  · have hne : cycle_calls ceb env ≠ [] := by
      intro h
      rw [(cycle_calls_eq_nil ceb env).mp h] at hy
      exact Bool.false_ne_true hy
    rw [if_pos hy, foldr_max_succ _ hne, highest_target_cycle_calls]
    omega
  · have hy2 : yields env = false := by simpa using hy
    rw [if_neg hy, (cycle_calls_eq_nil ceb env).mpr hy2]
    rfl

/-- What setting both RTS flags stores where. -/
theorem flagged_apply (x : sequence_t) (j : Nat) :
    flagged x j =
      if j = 20 then (if x 20 < 1 then 1 else x 20)
      else if j = 3 then (x 3 ||| (FLAGS_R1_RTS ||| FLAGS_R2_RTS)) % 256
      else x j := by
  have h1 := apply_call_flag x (setter_call.rts 1)
  have h2 := apply_call_flag (sequence_set_rts x 1) (setter_call.rts 2) j rfl
  simp only [apply_call, flag_radio, flag_mask] at h1 h2
  unfold flagged
  rw [h2, h1 20 rfl, h1 3 rfl, h1 j rfl]
  simp +decide only [if_true, true_or, or_true, if_false, or_mod256]
  split_ifs <;> rfl

theorem data_index_div (c : setter_call) (hok : call_ok c = true) (hf : is_flag_call c = false) :
    data_index c / 4 = target_frame c := by
  cases c with
  | rts r => simp [is_flag_call] at hf
  | ptt r => simp [is_flag_call] at hf
  | fsk_ext r => simp [is_flag_call] at hf
  | cw r => simp [is_flag_call] at hf
  | radio r f d =>
    simp only [call_ok, Bool.and_eq_true, Bool.or_eq_true, beq_iff_eq, decide_eq_true_eq] at hok
    simp only [target_frame, data_index]
    omega
  | control d v => simp [target_frame, data_index]
  | winkey d => simp [target_frame, data_index]
  | fsk r d =>
    simp only [call_ok, Bool.or_eq_true, beq_iff_eq] at hok
    simp only [target_frame, data_index]
    omega

theorem flag_call_target (c : setter_call) (hf : is_flag_call c = true) : target_frame c = 0 := by
  cases c <;> first | rfl | simp [is_flag_call] at hf

/-- A permitted call leaves the bytes of every frame other than its target as they are. -/
theorem apply_call_untouched (seq : sequence_t) (c : setter_call) (j : Nat)
    (hok : call_ok c = true) (hj : j < 20) (h : target_frame c ≠ j / 4) :
    apply_call seq c j = seq j := by
  have hj20 : j ≠ 20 := by omega
  by_cases hf : is_flag_call c = true
  · rw [apply_call_flag seq c j hf, if_neg hj20]
    have h3 : j ≠ 3 := by
      intro e
      rw [flag_call_target c hf, e] at h
      exact h rfl
    rw [if_neg h3]
  · have hf2 : is_flag_call c = false := by simpa using hf
    have hd := data_index_div c hok hf2
    rw [apply_call_data seq c j hok hf2, if_neg hj20]
    have h1 : ¬ (j = 4 * target_frame c) := by omega
    have h2 : ¬ (j = data_index c) := by
      intro e
      rw [e, hd] at h
      exact h rfl
    rw [if_neg h1, if_neg h2]

theorem apply_calls_untouched (calls : List setter_call) (seq : sequence_t) (j : Nat)
    (hok : ∀ c ∈ calls, call_ok c = true) (hj : j < 20)
    (h : ∀ c ∈ calls, target_frame c ≠ j / 4) :
    apply_calls seq calls j = seq j := by
  induction calls generalizing seq with
  | nil => rfl
  | cons c cs ih =>
    have hc := hok c (List.mem_cons_self c cs)
    have hcs : ∀ d ∈ cs, call_ok d = true := fun d hd => hok d (List.mem_cons_of_mem c hd)
    have tc := h c (List.mem_cons_self c cs)
    have tcs : ∀ d ∈ cs, target_frame d ≠ j / 4 := fun d hd => h d (List.mem_cons_of_mem c hd)
    have := ih (apply_call seq c) hcs tcs
    simp only [apply_calls, List.foldl_cons] at this ⊢
    rw [this, apply_call_untouched seq c j hc hj tc]

theorem cycle_calls_no_target (ceb : Nat) (env : cycle_env) (k : Nat)
    (h : slot_yields env k = false) : ∀ c ∈ cycle_calls ceb env, target_frame c ≠ k := by
  intro c hc e
  have hm : target_frame c ∈ (cycle_calls ceb env).map target_frame := List.mem_map_of_mem _ hc
  rw [cycle_calls_targets, List.mem_map] at hm
  obtain ⟨a, ha, hs⟩ := hm
  rw [List.mem_filter] at ha
  have : slot_yields env k = true := by
    unfold slot_yields
    rw [List.any_eq_true]
    exact ⟨a, ha.1, by simp [ha.2, hs, e]⟩
  rw [h] at this
  exact Bool.false_ne_true this

theorem getElem?_send_sequence (x : sequence_t) (i : Nat) (h : i < frames_in_sequence x * 4) :
    (send_sequence x)[i]? = some (x i) := by
  simp [send_sequence, List.getElem?_map, List.getElem?_range h]

/-- C13. Transmit decision and RTS policy: in every cycle, if no input
endpoint yields a byte then the sequence has frame count 0 and nothing is
written to the device; if at least one endpoint yields a byte then exactly one
sequence is written, it starts with frame 0 of the sequence, and in it frame
0's flags byte (`seq[3]`) has both FLAGS_R1_RTS and FLAGS_R2_RTS set and frame
0's shared-valid bit is set. -/
theorem C13_transmit_decision (allfds : fd_set) (p : ports) (st : loop_state) (env : cycle_env) :
    (yields env = false →
      frames_in_sequence (main_cycle allfds p st env).sequence = 0 ∧
      (main_cycle allfds p st env).keyer_writes = []) ∧
    (yields env = true →
      (main_cycle allfds p st env).keyer_writes =
        [send_sequence (main_cycle allfds p st env).sequence] ∧
      (send_sequence (main_cycle allfds p st env).sequence)[0]? =
        some ((main_cycle allfds p st env).sequence 0) ∧
      (send_sequence (main_cycle allfds p st env).sequence)[3]? =
        some ((main_cycle allfds p st env).sequence 3) ∧
      (main_cycle allfds p st env).sequence 3 &&& FLAGS_R1_RTS ≠ 0 ∧
      (main_cycle allfds p st env).sequence 3 &&& FLAGS_R2_RTS ≠ 0 ∧
      (main_cycle allfds p st env).sequence 0 &&& SYNCHRO_VALID_SHARED ≠ 0) := by
  obtain ⟨hs, hw⟩ := main_cycle_sequence allfds p st env
  have hf := frames_built_sequence st.controlendbyte env
  constructor
  · intro hy
    rw [hy] at hf
    simp only [Bool.false_eq_true, if_false] at hf
    rw [hs, hw, hf]
    simp only [ne_eq, not_true_eq_false, if_false]
    exact ⟨hf, trivial⟩
  · intro hy
    rw [hy] at hf
    simp only [if_true] at hf
    have hne : frames_in_sequence (built_sequence st.controlendbyte env) ≠ 0 := by omega
    rw [hs, hw, if_pos hne, if_pos hne]
    have hcount : 1 ≤ frames_in_sequence (flagged (built_sequence st.controlendbyte env)) := by
      unfold frames_in_sequence
      rw [flagged_apply, if_pos rfl]
      split_ifs <;> omega
    have h0 : flagged (built_sequence st.controlendbyte env) 0 =
        built_sequence st.controlendbyte env 0 := by
      rw [flagged_apply]
      rfl
    have h3 := flagged_apply (built_sequence st.controlendbyte env) 3
    simp only [if_true, show ¬ ((3 : Nat) = 20) by decide, if_false] at h3
    refine ⟨rfl, getElem?_send_sequence _ 0 (by omega), getElem?_send_sequence _ 3 (by omega),
      ?_, ?_, ?_⟩
    · rw [h3]
      simp only [FLAGS_R1_RTS, FLAGS_R2_RTS, ne_eq, and01, Bool.not_eq_false]
      rw [testBit_or_mod256 _ _ _ (by decide), Nat.testBit_or]
      simp +decide
    · rw [h3]
      simp only [FLAGS_R1_RTS, FLAGS_R2_RTS, ne_eq, and02, Bool.not_eq_false]
      rw [testBit_or_mod256 _ _ _ (by decide), Nat.testBit_or]
      simp +decide
    · rw [h0]
      exact frame0_valid_of_calls _ _ (cycle_calls_ok _ env)


/-- C13 on a cycle in which only the Winkey pty yields a byte (0x41), and on a
cycle in which no pty yields a byte. -/
theorem C13_transmit_decision_witness :
    (yields ⟨fun _ => true, none, none, none, none, none, none, some 0x41, fun _ => 0⟩ = true ∧
      yields ⟨fun _ => true, none, none, none, none, none, none, none, fun _ => 0⟩ = false) ∧
    (main_cycle (fun x => decide (3 ≤ x)) ⟨3, 4, 5, 6, 7, 8, 9, 10⟩
        ⟨0, fun _ => 0, 0, 0, FD_ZERO⟩
        ⟨fun _ => true, none, none, none, none, none, none, some 0x41,
          fun _ => 0⟩).keyer_writes =
      [send_sequence
        (main_cycle (fun x => decide (3 ≤ x)) ⟨3, 4, 5, 6, 7, 8, 9, 10⟩
          ⟨0, fun _ => 0, 0, 0, FD_ZERO⟩
          ⟨fun _ => true, none, none, none, none, none, none, some 0x41,
            fun _ => 0⟩).sequence] ∧
    (main_cycle (fun x => decide (3 ≤ x)) ⟨3, 4, 5, 6, 7, 8, 9, 10⟩
        ⟨0, fun _ => 0, 0, 0, FD_ZERO⟩
        ⟨fun _ => true, none, none, none, none, none, none, none, fun _ => 0⟩).keyer_writes =
      [] :=
  ⟨by decide,
    ((C13_transmit_decision (fun x => decide (3 ≤ x)) ⟨3, 4, 5, 6, 7, 8, 9, 10⟩
      ⟨0, fun _ => 0, 0, 0, FD_ZERO⟩
      ⟨fun _ => true, none, none, none, none, none, none, some 0x41, fun _ => 0⟩).2
      (by decide)).1,
    ((C13_transmit_decision (fun x => decide (3 ≤ x)) ⟨3, 4, 5, 6, 7, 8, 9, 10⟩
      ⟨0, fun _ => 0, 0, 0, FD_ZERO⟩
      ⟨fun _ => true, none, none, none, none, none, none, none, fun _ => 0⟩).1
      (by decide)).2⟩

/-- C14. Minimal transmit length: in every cycle in which at least one
endpoint yields a byte, the bytes handed to the device write are exactly the
first `4 * n` bytes of the sequence, where `n` is one plus the highest slot
among the endpoints that yielded a byte this cycle (R1 and R2 slot 0, Control
1, Winkey 2, FSK-1 3, FSK-2 4), so frames with index `n` or more are not sent;
and a frame `k` with `1 ≤ k < n` that no endpoint populated is sent as the
filler 0x40 0x80 0x80 0x80. -/
theorem C14_minimal_transmit (allfds : fd_set) (p : ports) (st : loop_state) (env : cycle_env)
    (hy : yields env = true) :
    (main_cycle allfds p st env).keyer_writes =
      [(List.range (4 * (1 + highest_slot env))).map (main_cycle allfds p st env).sequence] ∧
    ((List.range (4 * (1 + highest_slot env))).map
      (main_cycle allfds p st env).sequence).length = 4 * (1 + highest_slot env) ∧
    (∀ k, 1 ≤ k → k < 1 + highest_slot env → slot_yields env k = false →
      frame_at (main_cycle allfds p st env).sequence k 0 = 0x40 ∧
      frame_at (main_cycle allfds p st env).sequence k 1 = 0x80 ∧
      frame_at (main_cycle allfds p st env).sequence k 2 = 0x80 ∧
      frame_at (main_cycle allfds p st env).sequence k 3 = 0x80) := by
  obtain ⟨hs, hw⟩ := main_cycle_sequence allfds p st env
  have hf := frames_built_sequence st.controlendbyte env
  rw [hy] at hf
  simp only [if_true] at hf
  have hne : frames_in_sequence (built_sequence st.controlendbyte env) ≠ 0 := by omega
  rw [if_pos hne] at hs hw
  have hcount : frames_in_sequence (flagged (built_sequence st.controlendbyte env)) =
      1 + highest_slot env := by
    unfold frames_in_sequence at hf ⊢
    rw [flagged_apply, if_pos rfl, hf]
    split_ifs <;> omega
  have hle := highest_slot_le env
  refine ⟨?_, by simp, ?_⟩
  · rw [hw, hs]
    simp only [send_sequence, hcount, Nat.mul_comm]
  · intro k hk1 hk2 hk
    have hnt := cycle_calls_no_target st.controlendbyte env k hk
    have key : ∀ i, i < 4 → (main_cycle allfds p st env).sequence (4 * k + i) =
        sequence_init env.sequence (4 * k + i) := by
      intro i hi
      rw [hs, flagged_apply, if_neg (by omega), if_neg (by omega)]
      unfold built_sequence
      apply apply_calls_untouched _ _ _ (cycle_calls_ok _ env) (by omega)
      intro c hc
      have : (4 * k + i) / 4 = k := by omega
      rw [this]
      exact hnt c hc
    simp only [frame_at]
    rw [key 0 (by decide), key 1 (by decide), key 2 (by decide), key 3 (by decide)]
    simp only [sequence_init_apply]
    have hk4 : k ≤ 4 := by omega
    interval_cases k <;> simp

/-- C14 on a cycle in which only the Winkey pty yields a byte (0x41): 12 bytes
are sent, with frame 1 as filler. -/
theorem C14_minimal_transmit_witness :
    yields ⟨fun _ => true, none, none, none, none, none, none, some 0x41, fun _ => 0⟩ = true ∧
    (main_cycle (fun x => decide (3 ≤ x)) ⟨3, 4, 5, 6, 7, 8, 9, 10⟩
        ⟨0, fun _ => 0, 0, 0, FD_ZERO⟩
        ⟨fun _ => true, none, none, none, none, none, none, some 0x41,
          fun _ => 0⟩).keyer_writes =
      [[0x08, 0x80, 0x80, 0x83, 0x40, 0x80, 0x80, 0x80, 0x48, 0x80, 0x80, 0xC1]] ∧
    ((List.range
        (4 * (1 + highest_slot
          ⟨fun _ => true, none, none, none, none, none, none, some 0x41, fun _ => 0⟩))).map
      (main_cycle (fun x => decide (3 ≤ x)) ⟨3, 4, 5, 6, 7, 8, 9, 10⟩
        ⟨0, fun _ => 0, 0, 0, FD_ZERO⟩
        ⟨fun _ => true, none, none, none, none, none, none, some 0x41,
          fun _ => 0⟩).sequence).length =
      4 * (1 + highest_slot
        ⟨fun _ => true, none, none, none, none, none, none, some 0x41, fun _ => 0⟩) :=
  ⟨by decide, by decide,
    (C14_minimal_transmit (fun x => decide (3 ≤ x)) ⟨3, 4, 5, 6, 7, 8, 9, 10⟩
      ⟨0, fun _ => 0, 0, 0, FD_ZERO⟩
      ⟨fun _ => true, none, none, none, none, none, none, some 0x41, fun _ => 0⟩
      (by decide)).2.1⟩

/-! ## Order independence -/

/-- C18. Order independence of folding: for every sequence state and any two
setter calls for distinct logical channels among Control (frame 1), R1 (frame
0), R2 (frame 0), FSK-1 (frame 3), FSK-2 (frame 4) and Winkey (frame 2),
applying the two calls in either order yields the same sequence; hence the
sequence built in one cycle is the same whatever the order in which the calls
for the bytes read are made. -/
theorem C18_order_independence (seq : sequence_t) (c1 c2 : setter_call) (a b : port_id)
    (allfds : fd_set) (p : ports) (st : loop_state) (env : cycle_env)
    (calls : List setter_call)
    (h1 : channel_of c1 = some a) (h2 : channel_of c2 = some b) (hab : a ≠ b)
    (hperm : calls.Perm (cycle_calls st.controlendbyte env)) :
    apply_call (apply_call seq c1) c2 = apply_call (apply_call seq c2) c1 ∧
    apply_calls (sequence_init env.sequence) calls = built_sequence st.controlendbyte env ∧
    (main_cycle allfds p st env).sequence =
      (if frames_in_sequence (apply_calls (sequence_init env.sequence) calls) ≠ 0 then
        flagged (apply_calls (sequence_init env.sequence) calls)
      else apply_calls (sequence_init env.sequence) calls) := by
  obtain ⟨hch, hnd⟩ := cycle_calls_channel st.controlendbyte env
  have hb : apply_calls (sequence_init env.sequence) calls =
      built_sequence st.controlendbyte env :=
    (apply_calls_perm (sequence_init env.sequence) _ _ hch hnd hperm.symm).symm
  refine ⟨apply_call_comm_channels seq c1 c2 a b h1 h2 hab, hb, ?_⟩
  rw [hb]
  exact (main_cycle_sequence allfds p st env).1

/-- C18 on a Control byte and an R1 byte, and on a cycle with Control, R1 and
Winkey bytes whose calls are made in the reverse order. -/
theorem C18_order_independence_witness :
    (channel_of (setter_call.control 0x05 0) = some port_id.control ∧
      channel_of (setter_call.radio 1 0 0x41) = some port_id.radio1 ∧
      port_id.control ≠ port_id.radio1 ∧
      [setter_call.winkey 0x42, setter_call.radio 1 0 0x41, setter_call.control 0x05 0].Perm
        (cycle_calls 0
          ⟨fun _ => true, none, some 0x05, some 0x41, none, none, none, some 0x42,
            fun _ => 0⟩)) ∧
    apply_call (apply_call (fun _ => 0) (setter_call.control 0x05 0)) (setter_call.radio 1 0 0x41) =
      apply_call (apply_call (fun _ => 0) (setter_call.radio 1 0 0x41))
        (setter_call.control 0x05 0) :=
  ⟨by decide,
    (C18_order_independence (fun _ => 0) (setter_call.control 0x05 0)
      (setter_call.radio 1 0 0x41) port_id.control port_id.radio1 (fun x => decide (3 ≤ x))
      ⟨3, 4, 5, 6, 7, 8, 9, 10⟩ ⟨0, fun _ => 0, 0, 0, FD_ZERO⟩
      ⟨fun _ => true, none, some 0x05, some 0x41, none, none, none, some 0x42, fun _ => 0⟩
      [setter_call.winkey 0x42, setter_call.radio 1 0 0x41, setter_call.control 0x05 0]
      (by decide) (by decide) (by decide) (by decide)).1⟩

/-! ## The end byte inside a command -/

theorem control_run_append (e : Nat) (l1 l2 : List Nat) :
    control_run e (l1 ++ l2) =
      ((control_run e l1).1 ++ (control_run (control_run e l1).2 l2).1,
        (control_run (control_run e l1).2 l2).2) := by
  induction l1 generalizing e with
  | nil => rfl
  | cons x xs ih =>
    simp only [List.cons_append, control_run]
    rw [show xs.append l2 = xs ++ l2 from rfl, ih]

/-- C21. The terminator cannot appear in a payload: with a command open and
end byte `t` remembered (`controlendbyte = t`, non-zero), an incoming byte
equal to `t` is sent with valid=0 and closes the command (`controlendbyte`
becomes 0x00), while every byte different from `t`, 0x00 included, is sent
with valid=1 and leaves `controlendbyte` at `t`. Consequently, when the bytes
after the first byte `b` of a command contain `b | 0x80`, the command ends at
the first occurrence of it, and the byte `x` that follows is taken as the
first byte of a new command: it is sent with valid=0 and, if non-zero, arms
the end byte `x | 0x80`. -/
theorem C21_terminator_in_payload (t data b x : Nat) (pre rest : List Nat)
    (ht : t ≠ 0) (hb : b < 256) (hb0 : b ≠ 0) (hpre : ∀ y ∈ pre, y ≠ b ||| 0x80) :
    control_framer t t = (⟨t, 0⟩, 0) ∧
    (data ≠ t → control_framer t data = (⟨data, 1⟩, t)) ∧
    control_framer t 0 = (⟨0, 1⟩, t) ∧
    control_run 0 (b :: (pre ++ [b ||| 0x80]) ++ x :: rest) =
      ((⟨b, 0⟩ : control_call) ::
          (pre.map (fun y => (⟨y, 1⟩ : control_call)) ++ [⟨b ||| 0x80, 0⟩]) ++
        (⟨x, 0⟩ : control_call) ::
          (control_run (if x ≠ 0 then (x ||| 0x80) % 256 else 0) rest).1,
        (control_run (if x ≠ 0 then (x ||| 0x80) % 256 else 0) rest).2) := by
  refine ⟨?_, ?_, ?_, ?_⟩
  · simp [control_framer, ht]
  · intro hd
    have : ¬ (t = data) := fun e => hd e.symm
    simp [control_framer, ht, this]
  · simp [control_framer, ht]
  · obtain ⟨h1, h2⟩ := byte_or_end b hb
    have hp := control_run_payload (b ||| 0x80) h2 pre hpre
    have hfirst : control_run 0 (b :: (pre ++ [b ||| 0x80])) =
        ((⟨b, 0⟩ : control_call) ::
          (pre.map (fun y => (⟨y, 1⟩ : control_call)) ++ [⟨b ||| 0x80, 0⟩]), 0) := by
      simp only [control_run, control_framer, if_true, hb0, ne_eq, not_false_eq_true, h1, hp]
    rw [control_run_append, hfirst]
    simp only [control_run, control_framer, if_true]

/-- C21 on the bytes 0x05 0x10 0x85 0x20 0xA0: the command 0x05 ends at 0x85,
and 0x20 opens a new command, which 0xA0 closes. -/
theorem C21_terminator_in_payload_witness :
    (0x85 ≠ 0 ∧ 0x05 < 256 ∧ 0x05 ≠ 0 ∧ (∀ y ∈ [0x10], y ≠ 0x05 ||| 0x80) ∧ 0x10 ≠ 0x85) ∧
    control_framer 0x85 0x10 = (⟨0x10, 1⟩, 0x85) ∧
    control_run 0 [0x05, 0x10, 0x85, 0x20, 0xA0] =
      ([⟨0x05, 0⟩, ⟨0x10, 1⟩, ⟨0x85, 0⟩, ⟨0x20, 0⟩, ⟨0xA0, 0⟩], 0) :=
  ⟨by decide,
    (C21_terminator_in_payload 0x85 0x10 0x05 0x20 [0x10] [0xA0] (by decide) (by decide)
      (by decide) (by decide)).2.1 (by decide),
    (C21_terminator_in_payload 0x85 0x10 0x05 0x20 [0x10] [0xA0] (by decide) (by decide)
      (by decide) (by decide)).2.2.2⟩

/-! ## Built sequences and the decoder's phase -/

theorem phase_ok_init (s : sequence_t) : phase_ok (sequence_init s) := by
  refine ⟨?_, ?_, ?_⟩
  · simp +decide [sequence_init_apply]
  · simp +decide [sequence_init_apply]
  · intro k h1 h4
    interval_cases k <;> simp +decide [sequence_init_apply]

/-- A permitted call leaves a synchro byte as it is or ORs its mask into it. -/
theorem apply_call_sync (q : sequence_t) (c : setter_call) (k : Nat) (hok : call_ok c = true)
    (hk : k ≤ 4) :
    apply_call q c (4 * k) = q (4 * k) ∨
      apply_call q c (4 * k) = (q (4 * k) ||| sync_mask c) % 256 := by
  have hj20 : ¬ (4 * k = 20) := by omega
  by_cases hf : is_flag_call c = true
  · left
    rw [apply_call_flag q c (4 * k) hf, if_neg hj20, if_neg (by omega)]
  · have hf2 : is_flag_call c = false := by simpa using hf
    obtain ⟨t, l, m⟩ := data_call_facts c hok hf2
    rw [apply_call_data q c (4 * k) hok hf2, if_neg hj20]
    by_cases h1 : 4 * k = 4 * target_frame c
    · right
      rw [if_pos h1, ← h1]
    · left
      rw [if_neg h1, if_neg (by omega)]

theorem phase_ok_apply_call (q : sequence_t) (c : setter_call) (hok : call_ok c = true)
    (hq : phase_ok q) : phase_ok (apply_call q c) := by
  obtain ⟨h7, h6, hk⟩ := hq
  have h0 := apply_call_sync q c 0 hok (by decide)
  simp only [Nat.mul_zero] at h0
  refine ⟨?_, ?_, ?_⟩
  · rcases h0 with h | h
    · rw [h]; exact h7
    · rw [h, testBit_or_mod256 _ _ _ (by decide), h7, sync_mask_bit7]
      rfl
  · rcases h0 with h | h
    · rw [h]; exact h6
    · rw [h, testBit_or_mod256 _ _ _ (by decide), h6, sync_mask_bit6]
      rfl
  · intro k k1 k4
    rcases apply_call_sync q c k hok k4 with h | h
    · rw [h]; exact hk k k1 k4
    · rw [h, testBit_or_mod256 _ _ _ (by decide), hk k k1 k4]
      rfl

theorem and_C0_iff (x : Nat) : x &&& 0xC0 = 0 ↔ (x.testBit 7 = false ∧ x.testBit 6 = false) := by
  rw [← and80, ← and40]
  constructor
  · intro h
    constructor
    · have e : (0xC0 : Nat) &&& 0x80 = 0x80 := by decide
      calc x &&& 0x80 = x &&& (0xC0 &&& 0x80) := by rw [e]
        _ = (x &&& 0xC0) &&& 0x80 := (Nat.land_assoc x 0xC0 0x80).symm
        _ = 0 := by rw [h, Nat.zero_and]
    · by_contra hc
      exact and_C0_of_and_40 x hc h
  · rintro ⟨h1, h2⟩
    have e : (0xC0 : Nat) = 0x80 ||| 0x40 := by decide
    rw [e, Nat.and_or_distrib_left, h1, h2]
    rfl

/-- In-phase frames are decoded at their own index. -/
theorem dispatch_positions_in_phase (q : sequence_t) (p : ports) (hq : phase_ok q) (m s : Nat)
    (hs : 1 ≤ s) (hm : s + m ≤ 5) :
    dispatch_positions s ((List.range' s m).map (frame_at q)) p = List.range' s m := by
  induction m generalizing s with
  | zero => rfl
  | succ n ih =>
    have hb : frame_at q s 0 &&& 0xC0 ≠ 0 := by
      apply and_C0_of_and_40
      have := hq.2.2 s hs (by omega)
      simp only [frame_at, Nat.add_zero, ne_eq, and40, this]
      decide
    have hsync : decode_sync s (frame_at q s) = s := by
      simp only [decode_sync, hb, if_false]
    simp only [List.range'_succ, List.map_cons, dispatch_positions, hsync,
      decode_frame_sequencepos]
    rw [ih (s + 1) (by omega) (by omega)]

theorem dispatch_positions_sent (q : sequence_t) (p : ports) (pos : Nat) (hq : phase_ok q)
    (hn : frames_in_sequence q ≤ 5) :
    dispatch_positions pos (sent_frames q) p = List.range (frames_in_sequence q) := by
  unfold sent_frames
  rw [List.range_eq_range']
  cases h : frames_in_sequence q with
  | zero => rfl
  | succ n =>
    have h0 : decode_sync pos (frame_at q 0) = 0 := by
      have : frame_at q 0 0 &&& 0xC0 = 0 := by
        simp only [frame_at]
        exact (and_C0_iff _).mpr ⟨hq.1, hq.2.1⟩
      simp only [decode_sync, this, if_true]
    simp only [List.range'_succ, List.map_cons, dispatch_positions, h0, decode_frame_sequencepos]
    rw [dispatch_positions_in_phase q p hq n 1 (by decide) (by omega)]

theorem target_frame_le (c : setter_call) (hok : call_ok c = true) : target_frame c ≤ 4 := by
  by_cases hf : is_flag_call c = true
  · rw [flag_call_target c hf]
    exact Nat.zero_le 4
  · exact (data_call_facts c hok (by simpa using hf)).1

theorem frames_le_five (s : sequence_t) (calls : List setter_call)
    (hok : ∀ c ∈ calls, call_ok c = true) :
    frames_in_sequence (apply_calls (sequence_init s) calls) ≤ 5 := by
  rw [frames_apply_calls calls (sequence_init s) hok, frames_sequence_init]
  have : (calls.map (fun c => target_frame c + 1)).foldr max 0 ≤ 5 := by
    apply foldr_max_le
    intro x hx
    rw [List.mem_map] at hx
    obtain ⟨c, hc, rfl⟩ := hx
    have := target_frame_le c (hok c hc)
    omega
  omega

/-- C22. Built sequences keep the decoder in phase: for every sequence
obtained from `sequence_init` by any finite list of permitted setter calls
(radio in {1,2}, frame in 0..4), frame 0's synchronization byte has bits 7 and
6 both clear and the synchronization bytes of frames 1..4 have bit 6
(SYNCHRO_SEQUENCE) set; consequently, when the transmitted frames `0..n-1` of
such a sequence (the bytes `send_sequence` writes, four per frame) are fed to
`decode_frame` in order, from any prior sequence position, frame `k` is
decoded at position `k`. -/
theorem C22_decoder_in_phase (s : sequence_t) (calls : List setter_call) (pos : Nat) (p : ports)
    (hok : ∀ c ∈ calls, call_ok c = true) :
    (apply_calls (sequence_init s) calls) 0 &&& 0x80 = 0 ∧
    (apply_calls (sequence_init s) calls) 0 &&& 0x40 = 0 ∧
    (∀ k, 1 ≤ k → k ≤ 4 →
      (apply_calls (sequence_init s) calls) (4 * k) &&& SYNCHRO_SEQUENCE ≠ 0) ∧
    dispatch_positions pos (sent_frames (apply_calls (sequence_init s) calls)) p =
      List.range (frames_in_sequence (apply_calls (sequence_init s) calls)) ∧
    (∀ k j, k < frames_in_sequence (apply_calls (sequence_init s) calls) → j < 4 →
      (send_sequence (apply_calls (sequence_init s) calls))[4 * k + j]? =
        some (frame_at (apply_calls (sequence_init s) calls) k j)) := by
  have h : phase_ok (apply_calls (sequence_init s) calls) :=
    apply_calls_induction phase_ok _ _ (phase_ok_init s) phase_ok_apply_call hok
  refine ⟨(and80 _).mpr h.1, (and40 _).mpr h.2.1, ?_, ?_, ?_⟩
  · intro k k1 k4
    simp only [SYNCHRO_SEQUENCE, ne_eq, and40, h.2.2 k k1 k4]
    decide
  · exact dispatch_positions_sent _ p pos h (frames_le_five s calls hok)
  · intro k j hk hj
    exact getElem?_send_sequence _ _ (by omega)

/-- C22 on a Winkey byte and a radio 1 byte in frame 0: three frames, decoded
at positions 0, 1, 2 from prior position 7. -/
theorem C22_decoder_in_phase_witness :
    (∀ c ∈ [setter_call.winkey 0xC1, setter_call.radio 1 0 0x42], call_ok c = true) ∧
    dispatch_positions 7
        (sent_frames
          (apply_calls (sequence_init (fun _ => 0))
            [setter_call.winkey 0xC1, setter_call.radio 1 0 0x42]))
        ⟨3, 4, 5, 6, 7, 8, 9, 10⟩ =
      List.range
        (frames_in_sequence
          (apply_calls (sequence_init (fun _ => 0))
            [setter_call.winkey 0xC1, setter_call.radio 1 0 0x42])) ∧
    List.range
        (frames_in_sequence
          (apply_calls (sequence_init (fun _ => 0))
            [setter_call.winkey 0xC1, setter_call.radio 1 0 0x42])) = [0, 1, 2] :=
  ⟨by decide,
    (C22_decoder_in_phase (fun _ => 0) [setter_call.winkey 0xC1, setter_call.radio 1 0 0x42] 7
      ⟨3, 4, 5, 6, 7, 8, 9, 10⟩ (by decide)).2.2.2.1,
    by decide⟩

/-! ## Frame conditions of the setters -/

/-- C23. Setter frame conditions, for every sequence state:
`sequence_set_radio seq r i v` with `r` in {1,2} and `i` in 0..4 changes at
most `seq[4i+r]`, `seq[4i]` and the count `seq[20]`; `sequence_set_control`
at most `seq[7]`, `seq[4]` and `seq[20]`; `sequence_set_winkey` at most
`seq[11]`, `seq[8]` and `seq[20]`; `sequence_set_fsk seq r v` with `r` in
{1,2} at most `seq[11+4r]`, `seq[8+4r]` and `seq[20]`; each flag setter (rts,
ptt, fsk_ext, cw) at most `seq[3]` and `seq[20]`. In a synchronization byte
(`seq[4k]`, `k` in 0..4) a permitted setter call only adds bits: every bit of
the byte set before the call is still set after it. -/
theorem C23_frame_conditions (seq : sequence_t) (r i v valid radio : Nat) (c : setter_call) (k b : Nat)
    (hr : r = 1 ∨ r = 2) (hi : i ≤ 4) (hc : call_ok c = true) (hk : k ≤ 4) (hb : b < 8) :
    (∀ j, j ≠ 4 * i + r → j ≠ 4 * i → j ≠ 20 → sequence_set_radio seq r i v j = seq j) ∧
    (∀ j, j ≠ 7 → j ≠ 4 → j ≠ 20 → sequence_set_control seq v valid j = seq j) ∧
    (∀ j, j ≠ 11 → j ≠ 8 → j ≠ 20 → sequence_set_winkey seq v j = seq j) ∧
    (∀ j, j ≠ 11 + 4 * r → j ≠ 8 + 4 * r → j ≠ 20 → sequence_set_fsk seq r v j = seq j) ∧
    (∀ j, j ≠ 3 → j ≠ 20 →
      sequence_set_rts seq radio j = seq j ∧ sequence_set_ptt seq radio j = seq j ∧
      sequence_set_fsk_ext seq radio j = seq j ∧ sequence_set_cw seq radio j = seq j) ∧
    ((seq (4 * k)).testBit b = true → (apply_call seq c (4 * k)).testBit b = true) := by
  have okr : call_ok (setter_call.radio r i v) = true := by
    rcases hr with rfl | rfl <;> simp [call_ok, hi]
  have okf : call_ok (setter_call.fsk r v) = true := by
    rcases hr with rfl | rfl <;> rfl
  refine ⟨?_, ?_, ?_, ?_, ?_, ?_⟩
  · intro j h1 h2 h3
    have := apply_call_data seq (setter_call.radio r i v) j okr rfl
    simp only [apply_call, target_frame, data_index] at this
    rw [this, if_neg h3, if_neg h2, if_neg (by omega)]
  · intro j h1 h2 h3
    have := apply_call_data seq (setter_call.control v valid) j rfl rfl
    simp only [apply_call, target_frame, data_index] at this
    rw [this, if_neg h3, if_neg (by omega), if_neg h1]
  · intro j h1 h2 h3
    have := apply_call_data seq (setter_call.winkey v) j rfl rfl
    simp only [apply_call, target_frame, data_index] at this
    rw [this, if_neg h3, if_neg (by omega), if_neg h1]
  · intro j h1 h2 h3
    have := apply_call_data seq (setter_call.fsk r v) j okf rfl
    simp only [apply_call, target_frame, data_index] at this
    rw [this, if_neg h3, if_neg (by omega), if_neg (by omega)]
  · intro j h1 h2
    have a1 := apply_call_flag seq (setter_call.rts radio) j rfl
    have a2 := apply_call_flag seq (setter_call.ptt radio) j rfl
    have a3 := apply_call_flag seq (setter_call.fsk_ext radio) j rfl
    have a4 := apply_call_flag seq (setter_call.cw radio) j rfl
    simp only [apply_call] at a1 a2 a3 a4
    simp only [a1, a2, a3, a4, if_neg h2, if_neg h1, and_self]
  · intro hbit
    rcases apply_call_sync seq c k hc hk with h | h
    · rw [h]; exact hbit
    · rw [h, testBit_or_mod256 _ _ _ hb, hbit]
      rfl

/-- C23 on a freshly initialised sequence: a radio 2 byte for frame 3, and bit
3 (shared-valid) of `seq[0]` across a radio 1 call on frame 0. -/
theorem C23_frame_conditions_witness :
    ((2 = 1 ∨ 2 = 2) ∧ 3 ≤ 4 ∧ call_ok (setter_call.radio 1 0 0xC1) = true ∧ 0 ≤ 4 ∧ 3 < 8 ∧
      (sequence_init (fun _ => 0) (4 * 0)).testBit 3 = true) ∧
    (∀ j, j ≠ 4 * 3 + 2 → j ≠ 4 * 3 → j ≠ 20 →
      sequence_set_radio (sequence_init (fun _ => 0)) 2 3 0x55 j =
        sequence_init (fun _ => 0) j) ∧
    (apply_call (sequence_init (fun _ => 0)) (setter_call.radio 1 0 0xC1) (4 * 0)).testBit 3 =
      true :=
  ⟨by decide,
    (C23_frame_conditions (sequence_init (fun _ => 0)) 2 3 0x55 0 1
      (setter_call.radio 1 0 0xC1) 0 3 (by decide) (by decide) (by decide) (by decide)
      (by decide)).1,
    (C23_frame_conditions (sequence_init (fun _ => 0)) 2 3 0x55 0 1
      (setter_call.radio 1 0 0xC1) 0 3 (by decide) (by decide) (by decide) (by decide)
      (by decide)).2.2.2.2.2 (by decide)⟩

end Microkeyer
